import Mathlib

/-!
Verification development for the CCA core of an SSVEP analysis toolbox
(`SSVEPAnalysisToolbox/algorithms/utils.py` and
`SSVEPAnalysisToolbox/algorithms/cca.py`).

Modelling conventions.

Matrices are dense rational matrices (`Mat`) with explicit dimensions and a
total entry function; exact rational arithmetic stands in for the source's
floating-point arrays (claims about numeric values hold "up to floating-point
tolerance", which the exact model settles exactly).

Every scipy / numpy numerical kernel that the repository calls but does not
implement (`scipy.linalg.qr`, `scipy.linalg.svd`, `scipy.linalg.pinv`,
`scipy.linalg.eig`, `scipy.stats.pearsonr`, `np.sqrt`, `np.linalg.norm`,
`np.argsort`) is an external routine, so it is embedded as a field of an
`Oracle` parameter: the repository's own code is exactly the wiring around
those calls, and the embedded definitions reproduce that wiring.  Documented
contracts of the external routines (for example, that the pivoted QR returns
a permutation `P` with `A[:, P] = Q @ R`, or that singular values come back
sorted) appear as hypotheses of the theorems that need them.  scipy's
routines are deterministic functions of their input, which the functional
oracle represents faithfully; in particular `scipy.linalg.svd` returns the
same singular values with `compute_uv=False` as with `compute_uv=True`
(same `gesvd` driver), so both calls are embedded as projections of the one
oracle `svd` field.
-/

/-- Dense rational matrix: explicit dimensions plus a total entry function.
Entries at indices outside `rows × cols` are junk and are never read by the
operations below (all sums range over the declared dimensions). -/
structure Mat where
  rows : ℕ
  cols : ℕ
  entry : ℕ → ℕ → ℚ

namespace Mat

/-- The all-zeros matrix, `np.zeros((r, c))`. -/
def zero (r c : ℕ) : Mat := ⟨r, c, fun _ _ => 0⟩

/-- Identity matrix, `np.eye(n)`. -/
def eye (n : ℕ) : Mat := ⟨n, n, fun i j => if i = j then 1 else 0⟩

/-- Matrix transpose, `A.T`. -/
def transpose (A : Mat) : Mat := ⟨A.cols, A.rows, fun i j => A.entry j i⟩

/-- Matrix product `A @ B` (summing over the declared inner dimension of `A`). -/
def mul (A B : Mat) : Mat :=
  ⟨A.rows, B.cols, fun i j => ∑ t ∈ Finset.range A.cols, A.entry i t * B.entry t j⟩

/-- Scalar multiple of a matrix. -/
def smul (q : ℚ) (A : Mat) : Mat := ⟨A.rows, A.cols, fun i j => q * A.entry i j⟩

/-- Elementwise sum (numpy `+` on same-shaped arrays). -/
def add (A B : Mat) : Mat := ⟨A.rows, A.cols, fun i j => A.entry i j + B.entry i j⟩

/-- Leading submatrix `A[:r, :c]`; numpy slicing clamps at the array bounds. -/
def slice (A : Mat) (r c : ℕ) : Mat := ⟨min A.rows r, min A.cols c, A.entry⟩

/-- Column slice `A[:, :c]`. -/
def sliceCols (A : Mat) (c : ℕ) : Mat := ⟨A.rows, min A.cols c, A.entry⟩

/-- Column `c` of `A` as a vector. -/
def col (A : Mat) (c : ℕ) : ℕ → ℚ := fun i => A.entry i c

/-- Write vector `v` into column `c`: the slice assignment `A[:, c] = v`. -/
def setCol (A : Mat) (c : ℕ) (v : ℕ → ℚ) : Mat :=
  ⟨A.rows, A.cols, fun i j => if j = c then v i else A.entry i j⟩

/-- Write vector `v` into row `r`: the slice assignment `A[r, :] = v`. -/
def setRow (A : Mat) (r : ℕ) (v : ℕ → ℚ) : Mat :=
  ⟨A.rows, A.cols, fun i j => if i = r then v j else A.entry i j⟩

/-- Row-major flattening `np.reshape(A, (-1))`. -/
def flat (A : Mat) : List ℚ :=
  (List.range A.rows).flatMap (fun i => (List.range A.cols).map (fun j => A.entry i j))

/-- Horizontal concatenation `np.concatenate((A, B), axis=1)`. -/
def hconcat (A B : Mat) : Mat :=
  ⟨A.rows, A.cols + B.cols, fun i j => if j < A.cols then A.entry i j else B.entry i (j - A.cols)⟩

/-- Vertical concatenation `np.concatenate((A, B), axis=0)`. -/
def vconcat (A B : Mat) : Mat :=
  ⟨A.rows + B.rows, A.cols, fun i j => if i < A.rows then A.entry i j else B.entry (i - A.rows) j⟩

/-- Sum of the squares of all in-range entries (used for `np.linalg.norm`). -/
def sumSq (A : Mat) : ℚ :=
  ∑ i ∈ Finset.range A.rows, ∑ j ∈ Finset.range A.cols, A.entry i j * A.entry i j

/-- Extensional equality of matrices: same dimensions and same in-range
entries (junk outside the dimensions is ignored). -/
def eqOn (A B : Mat) : Prop :=
  A.rows = B.rows ∧ A.cols = B.cols ∧
    ∀ i < A.rows, ∀ j < A.cols, A.entry i j = B.entry i j

instance (A B : Mat) : Decidable (eqOn A B) := by
  unfold eqOn; infer_instance

@[simp] theorem transpose_rows (A : Mat) : A.transpose.rows = A.cols := rfl

@[simp] theorem transpose_cols (A : Mat) : A.transpose.cols = A.rows := rfl

@[simp] theorem mul_rows (A B : Mat) : (A.mul B).rows = A.rows := rfl

@[simp] theorem mul_cols (A B : Mat) : (A.mul B).cols = B.cols := rfl

@[simp] theorem setCol_rows (A : Mat) (c : ℕ) (v : ℕ → ℚ) : (A.setCol c v).rows = A.rows := rfl

@[simp] theorem setCol_cols (A : Mat) (c : ℕ) (v : ℕ → ℚ) : (A.setCol c v).cols = A.cols := rfl

@[simp] theorem zero_rows (r c : ℕ) : (zero r c).rows = r := rfl

@[simp] theorem zero_cols (r c : ℕ) : (zero r c).cols = c := rfl

end Mat

/-- Complex-valued matrix (entries are pairs `(re, im)` of rationals), used to
embed the complex output of `scipy.linalg.eig`. -/
structure CMat where
  rows : ℕ
  cols : ℕ
  entry : ℕ → ℕ → ℚ × ℚ

/-- Result triple of scipy's pivoted economy QR decomposition
`slin.qr(A, mode='economic', pivoting=True)`: for an `M × N` input, `Q` is
`M × K`, `R` is `K × N` (`K = min M N`) and `P` is the pivot index list. -/
structure QRTriple where
  Q : Mat
  R : Mat
  P : List ℕ

/-- Result triple of `scipy.linalg.svd`: left factor `L`, singular values `D`
and the (not yet transposed) right factor `Vh`. -/
structure SVDTriple where
  L : Mat
  D : List ℚ
  Vh : Mat

/-- The external numerical routines the repository calls but does not
implement.  The Boolean argument of `svd` is the `full_matrices` flag; the
`eig` and `geig` (generalized `slin.eig(A, B)`) results are complex;
`argsortc` embeds `np.argsort` on a complex vector (numpy orders complex
numbers lexicographically by real then imaginary part). -/
structure Oracle where
  qr : Mat → QRTriple
  svd : Bool → Mat → SVDTriple
  pinv : Mat → Mat
  sqrtQ : ℚ → ℚ
  pearson : List ℚ → List ℚ → ℚ
  eigc : Mat → List (ℚ × ℚ) × CMat
  geig : Mat → Mat → List (ℚ × ℚ) × CMat
  argsortc : List (ℚ × ℚ) → List ℕ

/-- Column-mean removal `X - np.mean(X, 0)` (the mean is taken over the rows,
one mean per column). -/
def colMeanRemove (X : Mat) : Mat :=
  ⟨X.rows, X.cols, fun i j =>
    X.entry i j - (∑ r ∈ Finset.range X.rows, X.entry r j) / (X.rows : ℚ)⟩

@[simp] theorem colMeanRemove_rows (X : Mat) : (colMeanRemove X).rows = X.rows := rfl

@[simp] theorem colMeanRemove_cols (X : Mat) : (colMeanRemove X).cols = X.cols := rfl

/-- Embeds `utils.qr_remove_mean`: remove the per-column mean, then apply the
external pivoted economy QR decomposition. -/
def qr_remove_mean (O : Oracle) (X : Mat) : QRTriple := O.qr (colMeanRemove X)

/-- Embeds `utils.mldivide`: least-squares solve via the external
Moore-Penrose pseudo-inverse, `slin.pinv(A) @ B`. -/
def mldivide (O : Oracle) (A B : Mat) : Mat := (O.pinv A).mul B

/-- The column-scattering loop of `utils.qr_inverse`:
`for i in range(n): X[:, P[i]] = tmp[:, i]`, starting from `np.zeros`. -/
def scatterCols (tmp : Mat) (P : List ℕ) : ℕ → Mat
  | 0 => Mat.zero tmp.rows tmp.cols
  | n + 1 => (scatterCols tmp P n).setCol (P.getD n 0) (tmp.col n)

/-- Embeds `utils.qr_inverse` (2-D "reference" case): form `tmp = Q @ R` and
undo the column permutation `P`. -/
def qr_inverse (Q R : Mat) (P : List ℕ) : Mat :=
  scatterCols (Q.mul R) P (Q.mul R).cols

/-- Embeds `utils.qr_inverse` (3-D "template" case): per-band recursive
application of the 2-D case. -/
def qr_inverse3 (bands : List (Mat × Mat × List ℕ)) : List Mat :=
  bands.map (fun t => qr_inverse t.1 t.2.1 t.2.2)

/-- The row-scattering loop of `utils.canoncorr`:
`for i in range(n): A_r[perm[i], :] = A[i, :]`, starting from `np.zeros`. -/
def scatterRows (A : Mat) (P : List ℕ) : ℕ → Mat
  | 0 => Mat.zero A.rows A.cols
  | n + 1 => (scatterRows A P n).setRow (P.getD n 0) (fun j => A.entry n j)

/-- The `full_matrices` flag chosen by `utils.canoncorr` (and by
`cca._r_cca_qr`): economy form exactly when the cross-product matrix is
taller than wide. -/
def fullMatricesFlag (svdX : Mat) : Bool := !(svdX.rows > svdX.cols)

/-- Embeds `utils.canoncorr` with `force_output_UV=False`: pivoted QR of both
mean-removed inputs, SVD of `Q1.T @ Q2`, and the singular values are returned
as the canonical correlations. -/
def canoncorr_r (O : Oracle) (X Y : Mat) : List ℚ :=
  let Q1 := (qr_remove_mean O X).Q
  let Q2 := (qr_remove_mean O Y).Q
  let svdX := Q1.transpose.mul Q2
  (O.svd (fullMatricesFlag svdX) svdX).D

/-- Embeds `utils.canoncorr` with `force_output_UV=True`: additionally
back-solves the canonical coefficient matrices through `mldivide` against the
R factors, scales by `sqrt(n - 1)` and un-permutes the rows by the QR pivots.
Returns `(A_r, B_r, r)`. -/
def canoncorr_UV (O : Oracle) (X Y : Mat) : Mat × Mat × List ℚ :=
  let n := X.rows
  let t1 := qr_remove_mean O X
  let t2 := qr_remove_mean O Y
  let svdX := t1.Q.transpose.mul t2.Q
  let s := O.svd (fullMatricesFlag svdX) svdX
  let M := s.Vh.transpose
  let A := Mat.smul (O.sqrtQ ((n : ℚ) - 1)) (mldivide O t1.R s.L)
  let B := Mat.smul (O.sqrtQ ((n : ℚ) - 1)) (mldivide O t2.R M)
  let A_r := scatterRows A t1.P A.rows
  let B_r := scatterRows B t2.P B.rows
  (A_r, B_r, s.D)

/-- Key property of the scattering loop: if `i0 < n` is the unique index
below `n` that `P` sends to column `c`, the scattered matrix's column `c` is
`tmp`'s column `i0`. -/
theorem scatterCols_entry (tmp : Mat) (P : List ℕ) :
    ∀ n r c i0 : ℕ, i0 < n → P.getD i0 0 = c →
      (∀ i < n, P.getD i 0 = c → i = i0) →
      (scatterCols tmp P n).entry r c = tmp.entry r i0 := by
  intro n
  induction n with
  | zero => intro r c i0 h _ _; omega
  | succ m ih =>
    intro r c i0 hi0 hP huniq
    simp only [scatterCols, Mat.setCol]
    by_cases hm : c = P.getD m 0
    · rw [if_pos hm]
      have hmeq : m = i0 := huniq m (Nat.lt_succ_self m) hm.symm
      rw [hmeq]; rfl
    · rw [if_neg hm]
      have hi0m : i0 < m := by
        rcases Nat.lt_succ_iff_lt_or_eq.mp hi0 with h | h
        · exact h
        · exact absurd (by rw [← hP, h]) hm
      exact ih r c i0 hi0m hP (fun i hi hPi => huniq i (Nat.lt_succ_of_lt hi) hPi)

@[simp] theorem scatterCols_rows (tmp : Mat) (P : List ℕ) (n : ℕ) :
    (scatterCols tmp P n).rows = tmp.rows := by
  induction n with
  | zero => rfl
  | succ m ih => simp [scatterCols, ih]

@[simp] theorem scatterCols_cols (tmp : Mat) (P : List ℕ) (n : ℕ) :
    (scatterCols tmp P n).cols = tmp.cols := by
  induction n with
  | zero => rfl
  | succ m ih => simp [scatterCols, ih]

/-- C1.  QR round-trip: for every real `M × N` matrix `X`, applying
`qr_inverse` to the triple returned by `qr_remove_mean(X)` reconstructs
`X - column_mean(X)`.  The hypotheses are scipy's documented contract for
`slin.qr(·, mode='economic', pivoting=True)` at this input: `Q` has `M` rows,
`R` has `N` columns, `P` is a permutation of `0..N-1` (stated as injectivity
plus surjectivity of its entries), and the mean-removed input restricted to
columns reordered by `P` equals `Q @ R` column by column.  The conclusion is
exact equality of in-range entries, the exact-arithmetic form of
"reconstructs up to floating-point tolerance". -/
theorem qr_roundtrip (O : Oracle) (X : Mat)
    (hQ : (qr_remove_mean O X).Q.rows = X.rows)
    (hR : (qr_remove_mean O X).R.cols = X.cols)
    (hinj : ∀ i < X.cols, ∀ j < X.cols,
      (qr_remove_mean O X).P.getD i 0 = (qr_remove_mean O X).P.getD j 0 → i = j)
    (hsurj : ∀ c < X.cols, ∃ i, i < X.cols ∧ (qr_remove_mean O X).P.getD i 0 = c)
    (hfac : ∀ r < X.rows, ∀ i < X.cols,
      ((qr_remove_mean O X).Q.mul (qr_remove_mean O X).R).entry r i
        = (colMeanRemove X).entry r ((qr_remove_mean O X).P.getD i 0)) :
    Mat.eqOn
      (qr_inverse (qr_remove_mean O X).Q (qr_remove_mean O X).R (qr_remove_mean O X).P)
      (colMeanRemove X) := by
  set t := qr_remove_mean O X with ht
  have hrows : (qr_inverse t.Q t.R t.P).rows = X.rows := by
    simp [qr_inverse, hQ]
  have hcols : (qr_inverse t.Q t.R t.P).cols = X.cols := by
    simp [qr_inverse, hR]
  refine ⟨by simpa using hrows, by simpa using hcols, ?_⟩
  intro r hr c hc
  rw [hrows] at hr
  rw [hcols] at hc
  obtain ⟨i0, hi0, hPi0⟩ := hsurj c hc
  have hn : (t.Q.mul t.R).cols = X.cols := by simpa using hR
  have hent : (qr_inverse t.Q t.R t.P).entry r c = (t.Q.mul t.R).entry r i0 := by
    unfold qr_inverse
    exact scatterCols_entry (t.Q.mul t.R) t.P (t.Q.mul t.R).cols r c i0
      (by omega) hPi0
      (fun i hi hPi => hinj i (by omega) i0 hi0 (by rw [hPi, hPi0]))
  rw [hent, hfac r hr i0 hi0, hPi0]

/-- Concrete input for the C1 witness. -/
def c1X : Mat := ⟨2, 2, fun i j => if i = 0 then (if j = 0 then 1 else 2) else (if j = 0 then 3 else 4)⟩

/-- Concrete oracle for the C1 witness: at the mean-removed input it returns
the trivial decomposition `Q = A`, `R = I`, `P = [0, 1]`, which satisfies the
pivoted-QR contract. -/
def c1Oracle : Oracle where
  qr := fun A => ⟨A, Mat.eye A.cols, [0, 1]⟩
  svd := fun _ A => ⟨A, [], A⟩
  pinv := fun A => A.transpose
  sqrtQ := fun _ => 0
  pearson := fun _ _ => 0
  eigc := fun A => ([], ⟨A.rows, A.cols, fun _ _ => (0, 0)⟩)
  geig := fun A _ => ([], ⟨A.rows, A.cols, fun _ _ => (0, 0)⟩)
  argsortc := fun l => List.range l.length

/-- Witness for C1: the round-trip theorem applied at the concrete input
`c1X` with the concrete contract-satisfying oracle `c1Oracle`. -/
theorem qr_roundtrip_witness :
    Mat.eqOn
      (qr_inverse (qr_remove_mean c1Oracle c1X).Q (qr_remove_mean c1Oracle c1X).R
        (qr_remove_mean c1Oracle c1X).P)
      (colMeanRemove c1X) :=
  qr_roundtrip c1Oracle c1X rfl rfl (by decide) (by decide)
    (by
      intro r hr i hi
      have hi' : i < 2 := hi
      interval_cases i <;>
        simp [qr_remove_mean, c1Oracle, Mat.mul, Mat.eye, colMeanRemove, c1X,
          Finset.sum_range_succ])

/-- Collapse of a sum against a Kronecker delta on the right. -/
theorem sum_mul_delta (N s : ℕ) (hs : s < N) (f : ℕ → ℚ) :
    (∑ t ∈ Finset.range N, f t * (if t = s then 1 else 0)) = f s := by
  rw [Finset.sum_eq_single s]
  · simp
  · intro b _ hb; simp [hb]
  · intro h; exact absurd (Finset.mem_range.mpr hs) h

/-- Singular values of a product of two matrices with orthonormal columns do
not exceed 1.  Abstract form over entry functions: `Q1` is `n × K1` and `Q2`
is `n × K2`, both with orthonormal columns; the `rN` singular values `D` with
orthonormal factors `L` (columns) and `Vh` (rows) reproduce `Q1.T @ Q2`.
Proved with the Cauchy-Schwarz inequality for finite sums. -/
theorem singular_val_le_one
    (n K1 K2 rN : ℕ) (Q1 Q2 L Vh : ℕ → ℕ → ℚ) (D : ℕ → ℚ)
    (hQ1 : ∀ a < K1, ∀ b < K1,
      (∑ m ∈ Finset.range n, Q1 m a * Q1 m b) = if a = b then 1 else 0)
    (hQ2 : ∀ a < K2, ∀ b < K2,
      (∑ m ∈ Finset.range n, Q2 m a * Q2 m b) = if a = b then 1 else 0)
    (hfac : ∀ r < K1, ∀ c < K2, (∑ m ∈ Finset.range n, Q1 m r * Q2 m c)
      = ∑ t ∈ Finset.range rN, L r t * D t * Vh t c)
    (hL : ∀ a < rN, ∀ b < rN,
      (∑ r ∈ Finset.range K1, L r a * L r b) = if a = b then 1 else 0)
    (hVh : ∀ a < rN, ∀ b < rN,
      (∑ c ∈ Finset.range K2, Vh a c * Vh b c) = if a = b then 1 else 0)
    (hpos : ∀ t < rN, 0 ≤ D t)
    (s : ℕ) (hs : s < rN) : D s ≤ 1 := by
  classical
  set v : ℕ → ℚ := fun m => ∑ c ∈ Finset.range K2, Q2 m c * Vh s c with hvdef
  set w : ℕ → ℚ := fun r => ∑ m ∈ Finset.range n, Q1 m r * v m with hwdef
  have hvv : (∑ m ∈ Finset.range n, v m * v m) = 1 := by
    have h1 : ∀ m, v m * v m
        = ∑ c ∈ Finset.range K2, ∑ c' ∈ Finset.range K2,
            (Vh s c * Vh s c') * (Q2 m c * Q2 m c') := by
      intro m
      rw [hvdef]
      rw [Finset.sum_mul_sum]
      exact Finset.sum_congr rfl (fun c _ => Finset.sum_congr rfl (fun c' _ => by ring))
    calc (∑ m ∈ Finset.range n, v m * v m)
        = ∑ m ∈ Finset.range n, ∑ c ∈ Finset.range K2, ∑ c' ∈ Finset.range K2,
            (Vh s c * Vh s c') * (Q2 m c * Q2 m c') :=
          Finset.sum_congr rfl (fun m _ => h1 m)
      _ = ∑ c ∈ Finset.range K2, ∑ c' ∈ Finset.range K2, (Vh s c * Vh s c')
            * (∑ m ∈ Finset.range n, Q2 m c * Q2 m c') := by
          rw [Finset.sum_comm]
          refine Finset.sum_congr rfl (fun c _ => ?_)
          rw [Finset.sum_comm]
          exact Finset.sum_congr rfl (fun c' _ => (Finset.mul_sum _ _ _).symm)
      _ = ∑ c ∈ Finset.range K2, Vh s c * Vh s c := by
          refine Finset.sum_congr rfl (fun c hc => ?_)
          have : ∀ c' ∈ Finset.range K2, (Vh s c * Vh s c')
              * (∑ m ∈ Finset.range n, Q2 m c * Q2 m c')
              = (Vh s c * Vh s c') * (if c = c' then 1 else 0) := by
            intro c' hc'
            rw [hQ2 c (Finset.mem_range.mp hc) c' (Finset.mem_range.mp hc')]
          rw [Finset.sum_congr rfl this]
          rw [Finset.sum_eq_single c]
          · simp
          · intro b _ hb; simp [Ne.symm hb]
          · intro h; exact absurd hc h
      _ = 1 := by
          have := hVh s hs s hs
          simpa using this
  have hwL : ∀ r < K1, w r = L r s * D s := by
    intro r hr
    have h1 : w r = ∑ c ∈ Finset.range K2,
        (∑ m ∈ Finset.range n, Q1 m r * Q2 m c) * Vh s c := by
      rw [hwdef]
      simp only [hvdef]
      calc (∑ m ∈ Finset.range n, Q1 m r * ∑ c ∈ Finset.range K2, Q2 m c * Vh s c)
          = ∑ m ∈ Finset.range n, ∑ c ∈ Finset.range K2, Q1 m r * (Q2 m c * Vh s c) := by
            exact Finset.sum_congr rfl (fun m _ => Finset.mul_sum _ _ _)
        _ = ∑ c ∈ Finset.range K2, ∑ m ∈ Finset.range n, Q1 m r * (Q2 m c * Vh s c) :=
            Finset.sum_comm
        _ = ∑ c ∈ Finset.range K2,
              (∑ m ∈ Finset.range n, Q1 m r * Q2 m c) * Vh s c := by
            refine Finset.sum_congr rfl (fun c _ => ?_)
            rw [Finset.sum_mul]
            exact Finset.sum_congr rfl (fun m _ => by ring)
    rw [h1]
    have h2 : ∀ c ∈ Finset.range K2, (∑ m ∈ Finset.range n, Q1 m r * Q2 m c) * Vh s c
        = ∑ t ∈ Finset.range rN, (L r t * D t) * (Vh t c * Vh s c) := by
      intro c hc
      rw [hfac r hr c (Finset.mem_range.mp hc), Finset.sum_mul]
      exact Finset.sum_congr rfl (fun t _ => by ring)
    rw [Finset.sum_congr rfl h2, Finset.sum_comm]
    have h3 : ∀ t ∈ Finset.range rN,
        (∑ c ∈ Finset.range K2, (L r t * D t) * (Vh t c * Vh s c))
        = (L r t * D t) * (if t = s then 1 else 0) := by
      intro t ht
      rw [← Finset.mul_sum, hVh t (Finset.mem_range.mp ht) s hs]
    rw [Finset.sum_congr rfl h3, sum_mul_delta rN s hs]
  have hww : (∑ r ∈ Finset.range K1, w r * w r) = (D s) * (D s) := by
    have h1 : ∀ r ∈ Finset.range K1, w r * w r = (D s * D s) * (L r s * L r s) := by
      intro r hr
      rw [hwL r (Finset.mem_range.mp hr)]; ring
    rw [Finset.sum_congr rfl h1, ← Finset.mul_sum, hL s hs s hs]
    simp
  set u : ℕ → ℚ := fun m => ∑ r ∈ Finset.range K1, Q1 m r * w r with hudef
  have huv : (∑ m ∈ Finset.range n, u m * v m) = D s * D s := by
    calc (∑ m ∈ Finset.range n, u m * v m)
        = ∑ m ∈ Finset.range n, ∑ r ∈ Finset.range K1, (Q1 m r * v m) * w r := by
          refine Finset.sum_congr rfl (fun m _ => ?_)
          rw [hudef]
          rw [Finset.sum_mul]
          exact Finset.sum_congr rfl (fun r _ => by ring)
      _ = ∑ r ∈ Finset.range K1, (∑ m ∈ Finset.range n, Q1 m r * v m) * w r := by
          rw [Finset.sum_comm]
          refine Finset.sum_congr rfl (fun r _ => ?_)
          rw [Finset.sum_mul]
      _ = ∑ r ∈ Finset.range K1, w r * w r :=
          Finset.sum_congr rfl (fun r _ => rfl)
      _ = D s * D s := hww
  have huu : (∑ m ∈ Finset.range n, u m * u m) = D s * D s := by
    have h1 : ∀ m, u m * u m = ∑ r ∈ Finset.range K1, ∑ r' ∈ Finset.range K1,
        (w r * w r') * (Q1 m r * Q1 m r') := by
      intro m
      rw [hudef]
      rw [Finset.sum_mul_sum]
      exact Finset.sum_congr rfl (fun r _ => Finset.sum_congr rfl (fun r' _ => by ring))
    calc (∑ m ∈ Finset.range n, u m * u m)
        = ∑ m ∈ Finset.range n, ∑ r ∈ Finset.range K1, ∑ r' ∈ Finset.range K1,
            (w r * w r') * (Q1 m r * Q1 m r') :=
          Finset.sum_congr rfl (fun m _ => h1 m)
      _ = ∑ r ∈ Finset.range K1, ∑ r' ∈ Finset.range K1, (w r * w r')
            * (∑ m ∈ Finset.range n, Q1 m r * Q1 m r') := by
          rw [Finset.sum_comm]
          refine Finset.sum_congr rfl (fun r _ => ?_)
          rw [Finset.sum_comm]
          exact Finset.sum_congr rfl (fun r' _ => (Finset.mul_sum _ _ _).symm)
      _ = ∑ r ∈ Finset.range K1, w r * w r := by
          refine Finset.sum_congr rfl (fun r hr => ?_)
          have : ∀ r' ∈ Finset.range K1, (w r * w r')
              * (∑ m ∈ Finset.range n, Q1 m r * Q1 m r')
              = (w r * w r') * (if r = r' then 1 else 0) := by
            intro r' hr'
            rw [hQ1 r (Finset.mem_range.mp hr) r' (Finset.mem_range.mp hr')]
          rw [Finset.sum_congr rfl this]
          rw [Finset.sum_eq_single r]
          · simp
          · intro b _ hb; simp [Ne.symm hb]
          · intro h; exact absurd hr h
      _ = D s * D s := hww
  have hcs : (∑ m ∈ Finset.range n, u m * v m) ^ 2
      ≤ (∑ m ∈ Finset.range n, u m ^ 2) * (∑ m ∈ Finset.range n, v m ^ 2) :=
    Finset.sum_mul_sq_le_sq_mul_sq _ _ _
  have hsq : (D s * D s) ^ 2 ≤ (D s * D s) * 1 := by
    have e1 : (∑ m ∈ Finset.range n, u m ^ 2) = D s * D s := by
      rw [← huu]; exact Finset.sum_congr rfl (fun m _ => sq (u m) ▸ by ring)
    have e2 : (∑ m ∈ Finset.range n, v m ^ 2) = 1 := by
      rw [← hvv]; exact Finset.sum_congr rfl (fun m _ => by ring)
    calc (D s * D s) ^ 2 = (∑ m ∈ Finset.range n, u m * v m) ^ 2 := by rw [huv]
      _ ≤ (∑ m ∈ Finset.range n, u m ^ 2) * (∑ m ∈ Finset.range n, v m ^ 2) := hcs
      _ = (D s * D s) * 1 := by rw [e1, e2]
  nlinarith [hpos s hs, sq_nonneg (D s), sq_nonneg (D s * D s - 1)]

/-- C6.  The vector of canonical correlations returned by
`canoncorr(X, Y, _)` has every entry in `[0, 1]` and is sorted in descending
order, so its first entry is the maximum.  `Q1`, `Q2` and `sv` name the
outputs of the external pivoted QR and SVD routines at the inputs that
`canoncorr` passes them; the hypotheses are those routines' documented
contracts (orthonormal `Q` columns; a valid SVD factorization with
orthonormal factors and nonnegative singular values sorted descending).
Descending order and nonnegativity transfer directly from the LAPACK
contract because `canoncorr` returns `D` unchanged; the upper bound 1 is
proved from the orthonormality of the QR factors of the two mean-removed
inputs via `singular_val_le_one`. -/
theorem canoncorr_r_unit_range_sorted (O : Oracle) (X Y : Mat)
    (Q1 Q2 : Mat) (sv : SVDTriple)
    (hQ1def : Q1 = (qr_remove_mean O X).Q)
    (hQ2def : Q2 = (qr_remove_mean O Y).Q)
    (hsvdef : sv = O.svd (fullMatricesFlag (Q1.transpose.mul Q2)) (Q1.transpose.mul Q2))
    (hrows : Q2.rows = Q1.rows)
    (hQ1 : ∀ a < Q1.cols, ∀ b < Q1.cols,
      (∑ m ∈ Finset.range Q1.rows, Q1.entry m a * Q1.entry m b) = if a = b then 1 else 0)
    (hQ2 : ∀ a < Q2.cols, ∀ b < Q2.cols,
      (∑ m ∈ Finset.range Q1.rows, Q2.entry m a * Q2.entry m b) = if a = b then 1 else 0)
    (hfac : ∀ r < Q1.cols, ∀ c < Q2.cols,
      (Q1.transpose.mul Q2).entry r c
        = ∑ t ∈ Finset.range sv.D.length, sv.L.entry r t * sv.D.getD t 0 * sv.Vh.entry t c)
    (hL : ∀ a < sv.D.length, ∀ b < sv.D.length,
      (∑ r ∈ Finset.range Q1.cols, sv.L.entry r a * sv.L.entry r b) = if a = b then 1 else 0)
    (hVh : ∀ a < sv.D.length, ∀ b < sv.D.length,
      (∑ c ∈ Finset.range Q2.cols, sv.Vh.entry a c * sv.Vh.entry b c) = if a = b then 1 else 0)
    (hpos : ∀ t < sv.D.length, 0 ≤ sv.D.getD t 0)
    (hsorted : ∀ a b : ℕ, a ≤ b → b < sv.D.length → sv.D.getD b 0 ≤ sv.D.getD a 0) :
    (∀ t < (canoncorr_r O X Y).length,
      0 ≤ (canoncorr_r O X Y).getD t 0 ∧ (canoncorr_r O X Y).getD t 0 ≤ 1)
    ∧ (∀ a b : ℕ, a ≤ b → b < (canoncorr_r O X Y).length →
      (canoncorr_r O X Y).getD b 0 ≤ (canoncorr_r O X Y).getD a 0) := by
  have hD : canoncorr_r O X Y = sv.D := by
    rw [canoncorr_r, hsvdef, hQ1def, hQ2def]
  rw [hD]
  refine ⟨fun t ht => ⟨hpos t ht, ?_⟩, hsorted⟩
  have hfac' : ∀ r < Q1.cols, ∀ c < Q2.cols,
      (∑ m ∈ Finset.range Q1.rows, Q1.entry m r * Q2.entry m c)
        = ∑ t ∈ Finset.range sv.D.length,
            sv.L.entry r t * sv.D.getD t 0 * sv.Vh.entry t c := by
    intro r hr c hc
    have := hfac r hr c hc
    rw [Mat.mul, Mat.transpose] at this
    simpa [hrows] using this
  exact singular_val_le_one Q1.rows Q1.cols Q2.cols sv.D.length
    Q1.entry Q2.entry sv.L.entry sv.Vh.entry (fun t => sv.D.getD t 0)
    hQ1 hQ2 hfac' hL hVh hpos t ht

/-- Concrete 2-by-1 input matrices for the C6 witness. -/
def c6X : Mat := ⟨2, 1, fun i _ => if i = 0 then 3 else 7⟩

/-- Concrete oracle for the C6 witness: the QR routine returns the constant
orthonormal column `e1` and the SVD routine returns the exact decomposition
`1 * [1] * 1` of the resulting `1 × 1` cross-product matrix. -/
def c6Oracle : Oracle where
  qr := fun _ => ⟨⟨2, 1, fun i _ => if i = 0 then 1 else 0⟩, Mat.eye 1, [0]⟩
  svd := fun _ _ => ⟨Mat.eye 1, [1], Mat.eye 1⟩
  pinv := fun A => A.transpose
  sqrtQ := fun _ => 0
  pearson := fun _ _ => 0
  eigc := fun A => ([], ⟨A.rows, A.cols, fun _ _ => (0, 0)⟩)
  geig := fun A _ => ([], ⟨A.rows, A.cols, fun _ _ => (0, 0)⟩)
  argsortc := fun l => List.range l.length

/-- Witness for C6: the range/sortedness theorem applied at the concrete
input `c6X` (used for both signal matrices) with the contract-satisfying
oracle `c6Oracle`. -/
theorem canoncorr_r_unit_range_sorted_witness :
    (∀ t < (canoncorr_r c6Oracle c6X c6X).length,
      0 ≤ (canoncorr_r c6Oracle c6X c6X).getD t 0
        ∧ (canoncorr_r c6Oracle c6X c6X).getD t 0 ≤ 1)
    ∧ (∀ a b : ℕ, a ≤ b → b < (canoncorr_r c6Oracle c6X c6X).length →
      (canoncorr_r c6Oracle c6X c6X).getD b 0 ≤ (canoncorr_r c6Oracle c6X c6X).getD a 0) :=
  canoncorr_r_unit_range_sorted c6Oracle c6X c6X
    (qr_remove_mean c6Oracle c6X).Q (qr_remove_mean c6Oracle c6X).Q
    (c6Oracle.svd true (Mat.eye 1)) rfl rfl rfl rfl
    (by
      intro a ha b hb
      have ha' : a < 1 := ha
      have hb' : b < 1 := hb
      interval_cases a <;> interval_cases b <;>
        norm_num [qr_remove_mean, c6Oracle, Finset.sum_range_succ])
    (by
      intro a ha b hb
      have ha' : a < 1 := ha
      have hb' : b < 1 := hb
      interval_cases a <;> interval_cases b <;>
        norm_num [qr_remove_mean, c6Oracle, Finset.sum_range_succ])
    (by
      intro r hr c hc
      have hr' : r < 1 := hr
      have hc' : c < 1 := hc
      interval_cases r <;> interval_cases c <;>
        norm_num [qr_remove_mean, c6Oracle, Mat.mul, Mat.transpose, Mat.eye,
          Finset.sum_range_succ])
    (by
      intro a ha b hb
      have ha' : a < 1 := ha
      have hb' : b < 1 := hb
      interval_cases a <;> interval_cases b <;>
        norm_num [c6Oracle, Mat.eye, qr_remove_mean, Finset.sum_range_succ])
    (by
      intro a ha b hb
      have ha' : a < 1 := ha
      have hb' : b < 1 := hb
      interval_cases a <;> interval_cases b <;>
        norm_num [c6Oracle, Mat.eye, qr_remove_mean, Finset.sum_range_succ])
    (by
      intro t ht
      have ht' : t < 1 := ht
      interval_cases t <;> norm_num [c6Oracle])
    (by
      intro a b hab hb
      have hb' : b < 1 := hb
      have ha' : a < 1 := Nat.lt_of_le_of_lt hab hb'
      interval_cases a <;> interval_cases b <;> norm_num [c6Oracle])

instance : Inhabited Mat := ⟨Mat.zero 0 0⟩

instance : Inhabited QRTriple := ⟨⟨Mat.zero 0 0, Mat.zero 0 0, []⟩⟩

/-- A per-class signal as the evaluators receive it: a 2-D reference
(`harmonic_num × signal_len`) or a 3-D per-band template
(`filterbank_num × channel_num × signal_len`, stored as a list of bands).
The source distinguishes the two cases by `len(Y[i].shape)`. -/
inductive Sig where
  | ref : Mat → Sig
  | temp : List Mat → Sig

instance : Inhabited Sig := ⟨Sig.ref (Mat.zero 0 0)⟩

/-- QR decomposition data of a `Sig`: one triple for a reference, one triple
per band for a template.  The source keeps three parallel lists `Q`, `R`,
`P`; bundling each entry into a `QRTriple` is an equivalent representation
of the same data. -/
inductive SigQR where
  | ref : QRTriple → SigQR
  | temp : List QRTriple → SigQR

instance : Inhabited SigQR := ⟨SigQR.ref default⟩

/-- Embeds `utils.qr_list`: each element is transposed and then decomposed
with `qr_remove_mean`, bandwise for 3-D template elements. -/
def qr_list (O : Oracle) (X : List Sig) : List SigQR :=
  X.map (fun el =>
    match el with
    | Sig.ref m => SigQR.ref (qr_remove_mean O m.transpose)
    | Sig.temp l => SigQR.temp (l.map (fun band => qr_remove_mean O band.transpose)))

/-- The reconstruction step shared by `_r_cca_qr` and `_r_cca_qr_withUV`:
`Y = qr_inverse(Y_Q[i], Y_R[i], Y_P[i])` followed by the transposition
(`Y_tmp.T` for a reference, `np.transpose(Y_tmp, (0,2,1))` for a template). -/
def sigQRInverse (s : SigQR) : Sig :=
  match s with
  | SigQR.ref t => Sig.ref (qr_inverse t.Q t.R t.P).transpose
  | SigQR.temp l => Sig.temp (l.map (fun t => (qr_inverse t.Q t.R t.P).transpose))

/-- Band selection on a signal: a reference is used whole for every band
(`Y_tmp = Y[i]`); a template contributes its band `k` (`Y_tmp = Y[i][k]`). -/
def sigBand (s : Sig) (k : ℕ) : Mat :=
  match s with
  | Sig.ref m => m
  | Sig.temp l => l.getD k default

/-- Band selection on QR data, mirroring `sigBand`. -/
def sigQRBand (s : SigQR) (k : ℕ) : QRTriple :=
  match s with
  | SigQR.ref t => t
  | SigQR.temp l => l.getD k default

/-- The harmonic count `Y[0].shape[0]` (2-D) or `Y[0].shape[1]` (3-D) read by
`_r_cca_canoncorr` and `_r_cca_canoncorr_withUV`. -/
def sigHarmonicNum (s : Sig) : ℕ :=
  match s with
  | Sig.ref m => m.rows
  | Sig.temp l => (l.headD default).rows

/-- The harmonic count `Y_R[0].shape[-1]` read by `_r_cca_qr`. -/
def sigQRHarmonicNum (s : SigQR) : ℕ :=
  match s with
  | SigQR.ref t => t.R.cols
  | SigQR.temp l => (l.headD default).R.cols



/-- Loop body of `cca._r_cca_canoncorr` at band `k`, class `i`: the triple
`(R[k,i], U[k,i,:,:], V[k,i,:,:])` the source computes there.  In the fast
path (`n_component == 0` and not `force_output_UV`) the `U`/`V` parts are
the never-written zero blocks of the preallocated arrays and the
correlation is the leading canonical correlation; otherwise the correlation
is the external Pearson coefficient of the filtered, flattened projections
and the `U`/`V` parts are the sliced canonical coefficient blocks. -/
def _r_cca_canoncorr_cell (O : Oracle) (X : List Mat) (Y : List Sig)
    (n_component : ℕ) (force_output_UV : Bool) (k i : ℕ) : ℚ × Mat × Mat :=
  let channel_num := (X.headD default).rows
  let harmonic_num := sigHarmonicNum (Y.headD default)
  let tmp := X.getD k default
  let Y_tmp := sigBand (Y.getD i default) k
  if n_component = 0 ∧ force_output_UV = false then
    ((canoncorr_r O tmp.transpose Y_tmp.transpose).getD 0 0,
      Mat.zero channel_num n_component, Mat.zero harmonic_num n_component)
  else
    let ccr := canoncorr_UV O tmp.transpose Y_tmp.transpose
    let Ucut := ccr.1.slice channel_num n_component
    let Vcut := ccr.2.1.slice harmonic_num n_component
    let a := (Ucut.transpose.mul tmp).flat
    let b := (Vcut.transpose.mul Y_tmp).flat
    (O.pearson a b, Ucut, Vcut)

/-- Embeds `cca._r_cca_canoncorr` for a single trial `X` (one matrix per
filter-bank band): the band-class grids `R`, `U`, `V` filled by
`_r_cca_canoncorr_cell`.  The source returns only `R` when
`force_output_UV` is false; callers of this embedding take the first
projection in that case. -/
def _r_cca_canoncorr (O : Oracle) (X : List Mat) (Y : List Sig) (n_component : ℕ)
    (force_output_UV : Bool) : List (List ℚ) × List (List Mat) × List (List Mat) :=
  ((List.range X.length).map (fun k => (List.range Y.length).map (fun i =>
      (_r_cca_canoncorr_cell O X Y n_component force_output_UV k i).1)),
   (List.range X.length).map (fun k => (List.range Y.length).map (fun i =>
      (_r_cca_canoncorr_cell O X Y n_component force_output_UV k i).2.1)),
   (List.range X.length).map (fun k => (List.range Y.length).map (fun i =>
      (_r_cca_canoncorr_cell O X Y n_component force_output_UV k i).2.2)))

/-- Embeds `cca._r_cca_canoncorr_withUV`: apply existing filters `U`, `V`
(indexed band × class) and correlate the projections. -/
def _r_cca_canoncorr_withUV (O : Oracle) (X : List Mat) (Y : List Sig)
    (U V : List (List Mat)) : List (List ℚ) :=
  (List.range X.length).map (fun k =>
    (List.range Y.length).map (fun i =>
      let tmp := X.getD k default
      let Y_tmp := sigBand (Y.getD i default) k
      let A_r := (U.getD k []).getD i default
      let B_r := (V.getD k []).getD i default
      let a := (A_r.transpose.mul tmp).flat
      let b := (B_r.transpose.mul Y_tmp).flat
      O.pearson a b))

/-- Loop body of `cca._r_cca_qr` at band `k`, class `i`.  The trial band is
freshly decomposed (`qr_remove_mean(tmp.T)`) while the reference/template
decompositions `YQR` were cached at fit time; the inner SVD, the `mldivide`
back-solves, the `sqrt(signal_len - 1)` scaling and the pivot
un-permutations mirror `utils.canoncorr`. -/
def _r_cca_qr_cell (O : Oracle) (X : List Mat) (YQR : List SigQR)
    (n_component : ℕ) (force_output_UV : Bool) (k i : ℕ) : ℚ × Mat × Mat :=
  let channel_num := (X.headD default).rows
  let signal_len := (X.headD default).cols
  let harmonic_num := sigQRHarmonicNum (YQR.headD default)
  let Y := YQR.map sigQRInverse
  let tmp := X.getD k default
  let xt := qr_remove_mean O tmp.transpose
  let yt := sigQRBand (YQR.getD i default) k
  let Y_tmp := sigBand (Y.getD i default) k
  let svd_X := xt.Q.transpose.mul yt.Q
  if n_component = 0 ∧ force_output_UV = false then
    ((O.svd (fullMatricesFlag svd_X) svd_X).D.getD 0 0,
      Mat.zero channel_num n_component, Mat.zero harmonic_num n_component)
  else
    let s := O.svd (fullMatricesFlag svd_X) svd_X
    let A := Mat.smul (O.sqrtQ ((signal_len : ℚ) - 1)) (mldivide O xt.R s.L)
    let B := Mat.smul (O.sqrtQ ((signal_len : ℚ) - 1)) (mldivide O yt.R s.Vh.transpose)
    let A_r := scatterRows A xt.P A.rows
    let B_r := scatterRows B yt.P B.rows
    let Ucut := A_r.slice channel_num n_component
    let Vcut := B_r.slice harmonic_num n_component
    let a := (Ucut.transpose.mul tmp).flat
    let b := (Vcut.transpose.mul Y_tmp).flat
    (O.pearson a b, Ucut, Vcut)

/-- Embeds `cca._r_cca_qr` for a single trial: the band-class grids `R`,
`U`, `V` filled by `_r_cca_qr_cell`.  The source returns only `R` when
`force_output_UV` is false; callers of this embedding take the first
projection in that case. -/
def _r_cca_qr (O : Oracle) (X : List Mat) (YQR : List SigQR) (n_component : ℕ)
    (force_output_UV : Bool) : List (List ℚ) × List (List Mat) × List (List Mat) :=
  ((List.range X.length).map (fun k => (List.range YQR.length).map (fun i =>
      (_r_cca_qr_cell O X YQR n_component force_output_UV k i).1)),
   (List.range X.length).map (fun k => (List.range YQR.length).map (fun i =>
      (_r_cca_qr_cell O X YQR n_component force_output_UV k i).2.1)),
   (List.range X.length).map (fun k => (List.range YQR.length).map (fun i =>
      (_r_cca_qr_cell O X YQR n_component force_output_UV k i).2.2)))

/-- Embeds `cca._r_cca_qr_withUV`: reconstruct the signals from their cached
QR data, apply existing filters and correlate.  The per-band trial QR
decomposition is computed exactly as in the source (where its result is
likewise unused). -/
def _r_cca_qr_withUV (O : Oracle) (X : List Mat) (YQR : List SigQR)
    (U V : List (List Mat)) : List (List ℚ) :=
  let Y := YQR.map sigQRInverse
  (List.range X.length).map (fun k =>
    (List.range YQR.length).map (fun i =>
      let tmp := X.getD k default
      let _xt := qr_remove_mean O tmp.transpose
      let Y_tmp := sigBand (Y.getD i default) k
      let A_r := (U.getD k []).getD i default
      let B_r := (V.getD k []).getD i default
      let a := (A_r.transpose.mul tmp).flat
      let b := (B_r.transpose.mul Y_tmp).flat
      O.pearson a b))

/-- Indexing a map over `List.range`: the `k`-th element is `f k`. -/
theorem getD_map_range {α : Type} (n k : ℕ) (hk : k < n) (f : ℕ → α) (d : α) :
    ((List.range n).map f).getD k d = f k := by
  rw [List.getD_eq_getElem?_getD, List.getElem?_map, List.getElem?_range hk]
  rfl

/-- Two-level indexing of a band-class grid built as a map over ranges. -/
theorem gridGetD {α : Type} (n m k i : ℕ) (hk : k < n) (hi : i < m)
    (f : ℕ → ℕ → α) (d : α) :
    (((List.range n).map (fun k => (List.range m).map (fun i => f k i))).getD k []).getD i d
      = f k i := by
  rw [getD_map_range n k hk]
  exact getD_map_range m i hi (fun i => f k i) d

/-- Indexing a list map at a valid index. -/
theorem getD_map_of_lt {α β : Type} (l : List α) (f : α → β) (j : ℕ) (hj : j < l.length)
    (dα : α) (dβ : β) : (l.map f).getD j dβ = f (l.getD j dα) := by
  rw [List.getD_eq_getElem?_getD, List.getElem?_map, List.getD_eq_getElem?_getD]
  cases hx : l[j]? with
  | none => exact absurd (List.getElem?_eq_none_iff.mp hx) (by omega)
  | some m => rfl

/-- C5.  With `n_component = 0` and `force_output_UV = False`, entry
`R[k, i]` of the correlation matrix of both SCCA evaluators equals the first
singular value that `canoncorr` returns for the band-`k` trial slice and the
class-`i` reference: the QR evaluator feeds the SVD the product of the
trial's freshly computed Q factor with the reference's fit-time cached Q
factor, which is exactly the cross product `canoncorr` builds when it
recomputes both decompositions, and the canoncorr evaluator calls
`canoncorr` directly.  (scipy's `svd` returns identical singular values with
and without `compute_uv`, which the shared oracle `svd` field represents.) -/
theorem scca_fast_path_agrees (O : Oracle) (X : List Mat) (refs : List Mat)
    (k i : ℕ) (hk : k < X.length) (hi : i < refs.length) :
    ((_r_cca_qr O X (qr_list O (refs.map Sig.ref)) 0 false).1.getD k []).getD i 0
      = (canoncorr_r O (X.getD k default).transpose
          (refs.getD i default).transpose).getD 0 0
    ∧ ((_r_cca_canoncorr O X (refs.map Sig.ref) 0 false).1.getD k []).getD i 0
      = (canoncorr_r O (X.getD k default).transpose
          (refs.getD i default).transpose).getD 0 0 := by
  have hlen : (qr_list O (refs.map Sig.ref)).length = refs.length := by
    simp [qr_list]
  have hmapref : (qr_list O (refs.map Sig.ref)).getD i default
      = SigQR.ref (qr_remove_mean O (refs.getD i default).transpose) := by
    rw [qr_list, List.map_map]
    exact getD_map_of_lt refs _ i hi default default
  have hYref : (refs.map Sig.ref).getD i default = Sig.ref (refs.getD i default) :=
    getD_map_of_lt refs _ i hi default default
  constructor
  · rw [_r_cca_qr]
    dsimp only
    rw [gridGetD X.length (qr_list O (refs.map Sig.ref)).length k i hk
      (by rw [hlen]; exact hi)]
    rw [_r_cca_qr_cell]
    dsimp only
    rw [if_pos (And.intro rfl rfl)]
    rw [hmapref]
    rfl
  · rw [_r_cca_canoncorr]
    dsimp only
    rw [gridGetD X.length (refs.map Sig.ref).length k i hk
      (by rw [List.length_map]; exact hi)]
    rw [_r_cca_canoncorr_cell]
    dsimp only
    rw [if_pos (And.intro rfl rfl)]
    rw [hYref]
    rfl

/-- Witness for C5: the agreement theorem applied to a concrete one-band
trial and a single concrete reference class. -/
theorem scca_fast_path_agrees_witness :
    ((_r_cca_qr c1Oracle [c1X] (qr_list c1Oracle ([c6X].map Sig.ref)) 0 false).1.getD 0 []).getD 0 0
      = (canoncorr_r c1Oracle ([c1X].getD 0 default).transpose
          ([c6X].getD 0 default).transpose).getD 0 0
    ∧ ((_r_cca_canoncorr c1Oracle [c1X] ([c6X].map Sig.ref) 0 false).1.getD 0 []).getD 0 0
      = (canoncorr_r c1Oracle ([c1X].getD 0 default).transpose
          ([c6X].getD 0 default).transpose).getD 0 0 :=
  scca_fast_path_agrees c1Oracle [c1X] [c6X] 0 0 (by decide) (by decide)

/-- Python exceptions that the embedded model methods can raise. -/
inductive PyErr where
  | valueError : String → PyErr
  | indexError : PyErr
  | nameError : PyErr

/-- Whether an embedded call raised a configuration error (`ValueError`). -/
def isCfgErr {α : Type} : Except PyErr α → Bool
  | .error (.valueError _) => true
  | _ => false

/-- Weight resolution at the top of every `predict`: a missing
`weights_filterbank` becomes the all-ones vector with one entry per
filter-bank band; a list is used as the row vector it denotes.  (The ndarray
reshaping branches do not arise for the list-typed weights modelled here.) -/
def resolveWeights (w : Option (List ℚ)) (filterbank_num : ℕ) : List ℚ :=
  match w with
  | none => (List.range filterbank_num).map (fun _ => 1)
  | some l => l

/-- Embeds `int(np.argmax(...))` on a vector: index of the first occurrence
of the maximum (`np.argmax` tie-breaking). -/
def argmaxList (l : List ℚ) : ℕ :=
  (l.foldl (fun acc x =>
    if acc.2.1 < x then (acc.2.2, x, acc.2.2 + 1) else (acc.1, acc.2.1, acc.2.2 + 1))
    (0, l.headD 0, 0)).1

/-- Embeds `weights_filterbank @ r_single`: the `1 × filterbank` row of
weights times the `filterbank × stimulus` correlation matrix, giving one
score per class. -/
def weightedScores (w : List ℚ) (R : List (List ℚ)) : List ℚ :=
  (List.range (R.headD []).length).map (fun j =>
    ∑ k ∈ Finset.range R.length, w.getD k 0 * (R.getD k []).getD j 0)

/-- Three-way zip, for `for (a, u, v) in zip(X, U, V)`; like Python's `zip`
it stops at the shortest list. -/
def zipWith3 {α β γ δ : Type} (f : α → β → γ → δ) : List α → List β → List γ → List δ
  | a :: as, b :: bs, c :: cs => f a b c :: zipWith3 f as bs cs
  | _, _, _ => []

/-- Mutable state of a `SCCA_qr` instance: constructor options plus the
`model` dictionary entries (`ref_sig_Q/R/P` bundled as `refQR`; `U`, `V` are
the cached per-trial filter tuples, `None` until stored). -/
structure SCCAqrState where
  weights_filterbank : Option (List ℚ)
  n_component : ℕ
  force_output_UV : Bool
  update_UV : Bool
  refQR : Option (List SigQR)
  U : Option (List (List (List Mat)))
  V : Option (List (List (List Mat)))

/-- Embeds `SCCA_qr.__init__`: empty model with `U = V = None`. -/
def SCCA_qr_init (n_component : ℕ) (weights_filterbank : Option (List ℚ))
    (force_output_UV update_UV : Bool) : SCCAqrState :=
  ⟨weights_filterbank, n_component, force_output_UV, update_UV, none, none, none⟩

/-- Embeds `SCCA_qr.fit`: raises a `ValueError` when `ref_sig` is missing,
otherwise caches the QR decompositions of the reference signals. -/
def SCCA_qr_fit (O : Oracle) (s : SCCAqrState) (ref_sig : Option (List Mat)) :
    Except PyErr SCCAqrState :=
  match ref_sig with
  | none => .error (.valueError "sCCA requires sine-cosine-based reference signal")
  | some refs => .ok { s with refQR := some (qr_list O (refs.map Sig.ref)) }

/-- Embeds `SCCA_qr.predict`: recompute or reuse the filters according to
`update_UV` / `force_output_UV`, then pick the arg-max class of the
filter-bank-weighted correlation row for each trial.  Returns the
predictions and the (possibly) updated state. -/
def SCCA_qr_predict (O : Oracle) (s : SCCAqrState) (X : List (List Mat)) :
    List ℕ × SCCAqrState :=
  let w := resolveWeights s.weights_filterbank (X.headD []).length
  let Y_Q := s.refQR.getD []
  if s.update_UV || s.U.isNone || s.V.isNone then
    if s.force_output_UV || !s.update_UV then
      let triples := X.map (fun a => _r_cca_qr O a Y_Q s.n_component true)
      let r := triples.map (fun t => t.1)
      (r.map (fun rs => argmaxList (weightedScores w rs)),
        { s with U := some (triples.map (fun t => t.2.1)),
                 V := some (triples.map (fun t => t.2.2)) })
    else
      let r := X.map (fun a => (_r_cca_qr O a Y_Q s.n_component false).1)
      (r.map (fun rs => argmaxList (weightedScores w rs)), s)
  else
    let r := zipWith3 (fun a u v => _r_cca_qr_withUV O a Y_Q u v) X
      (s.U.getD []) (s.V.getD [])
    (r.map (fun rs => argmaxList (weightedScores w rs)), s)

/-- Replaying `_r_cca_qr_withUV` with the filters that `_r_cca_qr` (with
`force_output_UV=True`) just produced reproduces the same correlation
matrix: both compute the Pearson correlation of the same sliced-filter
projections against the same reconstructed signals. -/
theorem r_cca_qr_withUV_recompute (O : Oracle) (x : List Mat) (YQR : List SigQR)
    (nc : ℕ) :
    _r_cca_qr_withUV O x YQR (_r_cca_qr O x YQR nc true).2.1
      (_r_cca_qr O x YQR nc true).2.2
      = (_r_cca_qr O x YQR nc true).1 := by
  have hneg : ¬(nc = 0 ∧ (true : Bool) = false) := by
    rintro ⟨-, h⟩; exact absurd h (by simp)
  rw [_r_cca_qr_withUV]
  conv_rhs => rw [_r_cca_qr]
  dsimp only
  refine List.map_congr_left (fun k hk => ?_)
  rw [List.mem_range] at hk
  refine List.map_congr_left (fun i hi => ?_)
  rw [List.mem_range] at hi
  dsimp only
  have hU : ((_r_cca_qr O x YQR nc true).2.1.getD k []).getD i default
      = (_r_cca_qr_cell O x YQR nc true k i).2.1 := by
    rw [_r_cca_qr]
    exact gridGetD x.length YQR.length k i hk hi _ default
  have hV : ((_r_cca_qr O x YQR nc true).2.2.getD k []).getD i default
      = (_r_cca_qr_cell O x YQR nc true k i).2.2 := by
    rw [_r_cca_qr]
    exact gridGetD x.length YQR.length k i hk hi _ default
  rw [hU, hV, _r_cca_qr_cell]
  dsimp only
  rw [if_neg hneg]

/-- Zipping a list against two of its own images collapses to a single map. -/
theorem zipWith3_map_map {α β γ δ : Type} (f : α → β → γ → δ) (g1 : α → β) (g2 : α → γ)
    (l : List α) : zipWith3 f l (l.map g1) (l.map g2) = l.map (fun a => f a (g1 a) (g2 a)) := by
  induction l with
  | nil => rfl
  | cons a as ih => simp [zipWith3, ih]

/-- C4.  For a `SCCA` model (qr variant) with `update_UV = False`, a second
`predict` call on the same trial list returns exactly the same predictions
as the first: if filters were not cached yet, the first call computes them
with `force_output_UV=True` and stores them, and the second call's
`_r_cca_qr_withUV` pass over the stored filters reproduces the first call's
correlation matrices (`r_cca_qr_withUV_recompute`); if filters were already
cached, the state does not change and both calls run the identical cached
pass. -/
theorem scca_predict_idempotent (O : Oracle) (s : SCCAqrState) (X : List (List Mat))
    (h : s.update_UV = false) :
    (SCCA_qr_predict O (SCCA_qr_predict O s X).2 X).1 = (SCCA_qr_predict O s X).1 := by
  cases hU : s.U with
  | some u =>
    cases hV : s.V with
    | some v =>
      simp only [SCCA_qr_predict, h, hU, hV, Option.isNone_some, Bool.or_self,
        Bool.false_or, Bool.or_false, if_false, Bool.false_eq_true]
    | none =>
      simp only [SCCA_qr_predict, h, hU, hV, Option.isNone_some, Option.isNone_none,
        Bool.or_true, Bool.false_or, Bool.or_false, if_true, Bool.not_false, Bool.true_or,
        List.map_map]
      simp only [Option.isNone_some, Bool.or_self, Bool.false_or, if_false,
        Bool.false_eq_true, Option.getD_some]
      rw [zipWith3_map_map, List.map_map]
      refine List.map_congr_left (fun a _ => ?_)
      simp only [Function.comp]
      rw [r_cca_qr_withUV_recompute]
  | none =>
    simp only [SCCA_qr_predict, h, hU, Option.isNone_none, Bool.true_or, Bool.false_or,
      if_true, Bool.not_false, Bool.or_true, List.map_map]
    simp only [Option.isNone_some, Bool.or_self, Bool.false_or, if_false,
      Bool.false_eq_true, Option.getD_some]
    rw [zipWith3_map_map, List.map_map]
    refine List.map_congr_left (fun a _ => ?_)
    simp only [Function.comp]
    rw [r_cca_qr_withUV_recompute]

/-- Witness for C4: the idempotence theorem applied to a freshly constructed
`SCCA_qr` model with `update_UV = False` and a concrete one-trial batch. -/
theorem scca_predict_idempotent_witness :
    (SCCA_qr_predict c1Oracle
        (SCCA_qr_predict c1Oracle (SCCA_qr_init 1 none false false) [[c1X]]).2 [[c1X]]).1
      = (SCCA_qr_predict c1Oracle (SCCA_qr_init 1 none false false) [[c1X]]).1 :=
  scca_predict_idempotent c1Oracle (SCCA_qr_init 1 none false false) [[c1X]] rfl

/-- Modelled from the spec: `gen_template` is imported from `utils` by
`cca.py` but its definition is not among the provided sources.  Per the spec
("Template signal (per class): mean trial across training repetitions for
that class, shape (filterbank_num × channel_num × signal_len); built once
per fit from labeled training trials", one list entry per stimulus class),
it returns, for each class label, the elementwise mean of the training
trials carrying that label. -/
def gen_template (X : List (List Mat)) (Y : List ℕ) : List (List Mat) :=
  let stimulus_num := Y.foldr max 0 + 1
  (List.range stimulus_num).map (fun c =>
    let trials := (X.zip Y).filterMap (fun p => if p.2 = c then some p.1 else none)
    let cnt := trials.length
    let fb := (trials.headD []).length
    (List.range fb).map (fun k =>
      let bands := trials.map (fun t => t.getD k default)
      ⟨(bands.headD default).rows, (bands.headD default).cols,
        fun i j => (∑ t ∈ Finset.range cnt, (bands.getD t default).entry i j) / (cnt : ℚ)⟩))

/-- Four-way zip, for `for (...) in zip(r1, r2, r3, r4)`. -/
def zipWith4 {α β γ δ ε : Type} (f : α → β → γ → δ → ε) :
    List α → List β → List γ → List δ → List ε
  | a :: as, b :: bs, c :: cs, d :: ds => f a b c d :: zipWith4 f as bs cs ds
  | _, _, _, _ => []

/-- Signed square `np.sign(r) * np.square(r)`. -/
def ssq (x : ℚ) : ℚ := if x < 0 then -(x * x) else x * x

/-- Elementwise signed square of a correlation matrix. -/
def ssqRR (R : List (List ℚ)) : List (List ℚ) := R.map (fun row => row.map ssq)

/-- Elementwise sum of two correlation matrices. -/
def addRR (A B : List (List ℚ)) : List (List ℚ) :=
  A.zipWith (fun ra rb => ra.zipWith (fun x y => x + y) rb) B

/-- Mutable state of an `ECCA` instance: constructor options plus the
`model` entries (reference and template QR caches, the three cached filter
pairs; `V2` is declared by the constructor and never written). -/
structure ECCAState where
  weights_filterbank : Option (List ℚ)
  n_component : ℕ
  update_UV : Bool
  refQR : Option (List SigQR)
  tmplQR : Option (List SigQR)
  U1 : Option (List (List (List Mat)))
  V1 : Option (List (List (List Mat)))
  U2 : Option (List (List (List Mat)))
  V2 : Option (List (List (List Mat)))
  U3 : Option (List (List Mat))
  V3 : Option (List (List Mat))

/-- Embeds `ECCA.__init__`: empty model, every filter slot `None`. -/
def ECCA_init (n_component : ℕ) (weights_filterbank : Option (List ℚ))
    (update_UV : Bool) : ECCAState :=
  ⟨weights_filterbank, n_component, update_UV, none, none, none, none, none, none, none, none⟩

/-- Embeds `ECCA.fit`: three required-argument checks (reference signal,
labels, data — in source order) before any state is written; then the
reference and template QR caches and the fit-time template-vs-reference
filters `U3`, `V3` from `canoncorr` with `force_output_UV=True`. -/
def ECCA_fit (O : Oracle) (s : ECCAState) (X : Option (List (List Mat)))
    (Y : Option (List ℕ)) (ref_sig : Option (List Mat)) : Except PyErr ECCAState :=
  match ref_sig with
  | none => .error (.valueError "eCCA requires sine-cosine-based reference signal")
  | some refs =>
    match Y with
    | none => .error (.valueError "eCCA requires training label")
    | some labels =>
      match X with
      | none => .error (.valueError "eCCA requires training data")
      | some trials =>
        let ref_sig_QR := qr_list O (refs.map Sig.ref)
        let template_sig := gen_template trials labels
        let template_sig_QR := qr_list O (template_sig.map Sig.temp)
        let filterbank_num := (template_sig.headD []).length
        let stimulus_num := template_sig.length
        let channel_num := ((template_sig.headD []).headD default).rows
        let harmonic_num := (refs.headD default).rows
        let U3 := (List.range filterbank_num).map (fun k =>
          (List.range stimulus_num).map (fun i =>
            ((canoncorr_UV O ((template_sig.getD i []).getD k default).transpose
              (refs.getD i default).transpose).1.slice channel_num s.n_component)))
        let V3 := (List.range filterbank_num).map (fun k =>
          (List.range stimulus_num).map (fun i =>
            ((canoncorr_UV O ((template_sig.getD i []).getD k default).transpose
              (refs.getD i default).transpose).2.1.slice harmonic_num s.n_component)))
        .ok { s with refQR := some ref_sig_QR, tmplQR := some template_sig_QR,
                     U3 := some U3, V3 := some V3 }

/-- Embeds `ECCA.predict`.  `r1` is recomputed (and `U1`, `V1` stored) or
replayed from the cache according to `update_UV`; the `r2` block recomputes
and stores `U2` when `update_UV` is true or no `U2` is cached — on the
remaining path the source reads the local variable `U2` that was never
bound, which raises an `UnboundLocalError` (embedded as `nameError`); `r2`,
`r3` and `r4` all replay `_r_cca_qr_withUV` against the template cache with
the filter passed as both the `U` and the `V` argument (`U2`, `U1` and the
fit-time `U3` respectively); the class decision is the arg-max of the
filter-bank-weighted sum of the four signed-squared correlation matrices. -/
def ECCA_predict (O : Oracle) (s : ECCAState) (X : List (List Mat)) :
    Except PyErr (List ℕ × ECCAState) :=
  let w := resolveWeights s.weights_filterbank (X.headD []).length
  let refQR := s.refQR.getD []
  let tmplQR := s.tmplQR.getD []
  let U3 := s.U3.getD []
  let recompute1 := s.update_UV || s.U1.isNone || s.V1.isNone
  let triples1 := X.map (fun a => _r_cca_qr O a refQR s.n_component true)
  let U1 := if recompute1 then triples1.map (fun t => t.2.1) else s.U1.getD []
  let r1 := if recompute1 then triples1.map (fun t => t.1)
    else zipWith3 (fun a u v => _r_cca_qr_withUV O a refQR u v) X (s.U1.getD []) (s.V1.getD [])
  let s1 := if recompute1
    then { s with U1 := some (triples1.map (fun t => t.2.1)),
                  V1 := some (triples1.map (fun t => t.2.2)) }
    else s
  if s.update_UV || s.U2.isNone then
    let triples2 := X.map (fun a => _r_cca_qr O a tmplQR s.n_component true)
    let U2 := triples2.map (fun t => t.2.1)
    let s2 := { s1 with U2 := some U2 }
    let r2 := zipWith3 (fun a u v => _r_cca_qr_withUV O a tmplQR u v) X U2 U2
    let r3 := zipWith3 (fun a u v => _r_cca_qr_withUV O a tmplQR u v) X U1 U1
    let r4 := X.map (fun a => _r_cca_qr_withUV O a tmplQR U3 U3)
    let Y_pred := zipWith4 (fun q1 q2 q3 q4 =>
      argmaxList (weightedScores w
        (addRR (addRR (addRR (ssqRR q1) (ssqRR q2)) (ssqRR q3)) (ssqRR q4)))) r1 r2 r3 r4
    .ok (Y_pred, s2)
  else
    .error .nameError

/-- Four-way zip of four images of the same list collapses to a single map. -/
theorem zipWith4_map_map {α β γ δ ε ζ : Type} (f : β → γ → δ → ε → ζ)
    (g1 : α → β) (g2 : α → γ) (g3 : α → δ) (g4 : α → ε) (l : List α) :
    zipWith4 f (l.map g1) (l.map g2) (l.map g3) (l.map g4)
      = l.map (fun a => f (g1 a) (g2 a) (g3 a) (g4 a)) := by
  induction l with
  | nil => rfl
  | cons a as ih => simp [zipWith4, ih]


/-- C3.  In `ECCA.predict` (default `update_UV=True` path), every trial's
predicted class is the arg-max of the filter-bank-weighted sum of four
signed-squared correlation matrices: `r1` from `_r_cca_qr` of the trial
against the reference cache (producing the reference-learned `U1`, `V1`),
`r2` from `_r_cca_qr_withUV` of the trial against the template cache with
the trial's template-learned `U2` passed as both the `U` and the `V`
argument, `r3` likewise with the trial's reference-learned `U1` passed as
both arguments, and `r4` likewise with the fit-time template-vs-reference
filter `U3` passed as both arguments. -/
theorem ecca_predict_scores (O : Oracle) (s : ECCAState) (X : List (List Mat))
    (h : s.update_UV = true) :
    Except.map (fun p => p.1) (ECCA_predict O s X) = .ok (X.map (fun a =>
      argmaxList (weightedScores (resolveWeights s.weights_filterbank (X.headD []).length)
        (addRR (addRR (addRR
          (ssqRR (_r_cca_qr O a (s.refQR.getD []) s.n_component true).1)
          (ssqRR (_r_cca_qr_withUV O a (s.tmplQR.getD [])
            (_r_cca_qr O a (s.tmplQR.getD []) s.n_component true).2.1
            (_r_cca_qr O a (s.tmplQR.getD []) s.n_component true).2.1)))
          (ssqRR (_r_cca_qr_withUV O a (s.tmplQR.getD [])
            (_r_cca_qr O a (s.refQR.getD []) s.n_component true).2.1
            (_r_cca_qr O a (s.refQR.getD []) s.n_component true).2.1)))
          (ssqRR (_r_cca_qr_withUV O a (s.tmplQR.getD []) (s.U3.getD []) (s.U3.getD []))))))) := by
  rw [ECCA_predict]
  dsimp only
  rw [h]
  simp only [Bool.true_or, if_true]
  simp only [List.map_map]
  rw [zipWith3_map_map, zipWith3_map_map, zipWith4_map_map]
  simp only [Function.comp]
  rfl

/-- Witness for C3: the scoring theorem applied to a freshly constructed
`ECCA` model (default `update_UV=True`) on a concrete one-trial batch. -/
theorem ecca_predict_scores_witness :
    Except.map (fun p => p.1) (ECCA_predict c1Oracle (ECCA_init 1 none true) [[c1X]])
      = .ok ([[c1X]].map (fun a =>
      argmaxList (weightedScores
        (resolveWeights (ECCA_init 1 none true).weights_filterbank ([[c1X]].headD []).length)
        (addRR (addRR (addRR
          (ssqRR (_r_cca_qr c1Oracle a ((ECCA_init 1 none true).refQR.getD [])
            (ECCA_init 1 none true).n_component true).1)
          (ssqRR (_r_cca_qr_withUV c1Oracle a ((ECCA_init 1 none true).tmplQR.getD [])
            (_r_cca_qr c1Oracle a ((ECCA_init 1 none true).tmplQR.getD [])
              (ECCA_init 1 none true).n_component true).2.1
            (_r_cca_qr c1Oracle a ((ECCA_init 1 none true).tmplQR.getD [])
              (ECCA_init 1 none true).n_component true).2.1)))
          (ssqRR (_r_cca_qr_withUV c1Oracle a ((ECCA_init 1 none true).tmplQR.getD [])
            (_r_cca_qr c1Oracle a ((ECCA_init 1 none true).refQR.getD [])
              (ECCA_init 1 none true).n_component true).2.1
            (_r_cca_qr c1Oracle a ((ECCA_init 1 none true).refQR.getD [])
              (ECCA_init 1 none true).n_component true).2.1)))
          (ssqRR (_r_cca_qr_withUV c1Oracle a ((ECCA_init 1 none true).tmplQR.getD [])
            ((ECCA_init 1 none true).U3.getD []) ((ECCA_init 1 none true).U3.getD []))))))) :=
  ecca_predict_scores c1Oracle (ECCA_init 1 none true) [[c1X]] rfl

/-- Modelled from the spec: `sort` is imported from `utils` by `cca.py` but
its definition is not among the provided sources.  Per the spec
("concatenating each class's reference/template with its `n_neighbor`
nearest frequency-sorted neighbors"), it returns the ascending sort of the
frequency list together with the sorting permutation `freqs_idx` and the
inverse permutation `return_freqs_idx` used to un-sort the per-class
filters.  Insertion step of the corresponding index sort. -/
def insertIdxBy (l : List ℚ) (i : ℕ) : List ℕ → List ℕ
  | [] => [i]
  | j :: rest => if l.getD i 0 < l.getD j 0 then i :: j :: rest else j :: insertIdxBy l i rest

/-- Modelled from the spec: ascending argsort of a rational list (insertion
sort; stability is irrelevant to the claims below). -/
def argsortAsc (l : List ℚ) : List ℕ :=
  (List.range l.length).foldr (insertIdxBy l) []

/-- Inverse of an index permutation: position of each value in the list. -/
def invPerm (p : List ℕ) : List ℕ :=
  (List.range p.length).map (fun j => p.findIdx (fun x => x = j))

/-- Modelled from the spec: the `sort` helper, returning the sorted values,
the sorting permutation and its inverse. -/
def sortQ (freqs : List ℚ) : List ℚ × List ℕ × List ℕ :=
  let idx := argsortAsc freqs
  (idx.map (fun i => freqs.getD i 0), idx, invPerm idx)

/-- Python list indexing: non-negative indices within range, negative
indices wrap once from the end, anything else is an `IndexError` (`none`). -/
def pyGet {α : Type} (l : List α) (i : ℤ) : Option α :=
  if 0 ≤ i then l[i.toNat]?
  else if -(l.length : ℤ) ≤ i then l[((l.length : ℤ) + i).toNat]? else none

/-- Python `range(a, b)` over integers. -/
def intRange (a b : ℤ) : List ℤ :=
  if a < b then a :: intRange (a + 1) b else []
termination_by (b - a).toNat
decreasing_by simp_wf; omega

/-- Sequence of Python list accesses: `[l[i] for i in idxs]`, failing like
Python on the first out-of-range access. -/
def pyGather {α : Type} (l : List α) : List ℤ → Option (List α)
  | [] => some []
  | i :: rest =>
    match pyGet l i, pyGather l rest with
    | some x, some xs => some (x :: xs)
    | _, _ => none

/-- The neighbor-window bounds computed inside `MSCCA.fit` for the 1-based
class index `class_idx`: with `d0 = int(np.floor(n_neighbor / 2))`, the
first `d0` classes take `[0, n_neighbor)`, interior classes take the
centered window, and the remaining classes take
`[stimulus_num - n_neighbor, stimulus_num)` (Python integer arithmetic, so
bounds may be negative or exceed the class count). -/
def msccaWindow (stimulus_num n_neighbor : ℕ) (class_idx : ℤ) : ℤ × ℤ :=
  let d0 : ℤ := ((n_neighbor / 2 : ℕ) : ℤ)
  if class_idx ≤ d0 then (0, (n_neighbor : ℤ))
  else if class_idx > d0 ∧ class_idx < (stimulus_num : ℤ) - d0 + 1 then
    (class_idx - d0 - 1, class_idx + ((n_neighbor : ℤ) - d0 - 1))
  else ((stimulus_num : ℤ) - (n_neighbor : ℤ), (stimulus_num : ℤ))

/-- Concatenation of a list of matrices along the last axis,
`np.concatenate(..., axis=-1)` (the empty-list case does not arise in the
claims below). -/
def hconcatList (l : List Mat) : Mat :=
  match l with
  | [] => Mat.zero 0 0
  | m :: rest => rest.foldl Mat.hconcat m

/-- The neighbor-window gathering loop of `MSCCA.fit`: for each 1-based
class index, gather the frequency-sorted references and templates of the
window `msccaWindow` with Python indexing semantics, failing like Python on
the first out-of-range access. -/
def msccaWindows (stim nn : ℕ) (refSort : List Mat) (tmplSort : List (List Mat)) :
    List ℤ → Option (List (List Mat × List (List Mat)))
  | [] => some []
  | c :: rest =>
    let se := msccaWindow stim nn c
    match pyGather refSort (intRange se.1 se.2),
        pyGather tmplSort (intRange se.1 se.2),
        msccaWindows stim nn refSort tmplSort rest with
    | some rs, some ts, some acc => some ((rs, ts) :: acc)
    | _, _, _ => none

/-- Mutable state of an `MSCCA` instance. -/
structure MSCCAState where
  weights_filterbank : Option (List ℚ)
  n_component : ℕ
  n_neighbor : ℕ
  ref_sig : Option (List Mat)
  template_sig : Option (List (List Mat))
  U : Option (List (List Mat))
  V : Option (List (List Mat))

/-- Embeds `MSCCA.__init__`. -/
def MSCCA_init (n_neighbor n_component : ℕ) (weights_filterbank : Option (List ℚ)) :
    MSCCAState :=
  ⟨weights_filterbank, n_component, n_neighbor, none, none, none, none⟩

/-- Embeds `MSCCA.fit`: four required-argument checks (frequencies,
reference, labels, data — in source order) raise `ValueError` before any
state is written; then the template generation, the frequency sort, the
neighbor-window concatenations (raising `IndexError` exactly where Python's
list indexing would), the per-band `canoncorr` filters of the concatenated
signals, and the un-sorting of the class axis.  (On the `IndexError` path
the source has already stored `ref_sig` and `template_sig`; no claim below
depends on that partially written state, which the `Except` embedding does
not carry.) -/
def MSCCA_fit (O : Oracle) (s : MSCCAState) (freqs : Option (List ℚ))
    (X : Option (List (List Mat))) (Y : Option (List ℕ)) (ref_sig : Option (List Mat)) :
    Except PyErr MSCCAState :=
  match freqs with
  | none => .error (.valueError "ms-CCA requires the list of stimulus frequencies")
  | some fr =>
    match ref_sig with
    | none => .error (.valueError "ms-CCA requires sine-cosine-based reference signal")
    | some refs =>
      match Y with
      | none => .error (.valueError "ms-CCA requires training label")
      | some labels =>
        match X with
        | none => .error (.valueError "ms-CCA requires training data")
        | some trials =>
          let template_sig := gen_template trials labels
          let filterbank_num := (template_sig.headD []).length
          let stimulus_num := template_sig.length
          let channel_num := ((template_sig.headD []).headD default).rows
          let harmonic_num := (refs.headD default).rows
          let srt := sortQ fr
          let ref_sig_sort := srt.2.1.map (fun i => refs.getD i default)
          let template_sig_sort := srt.2.1.map (fun i => template_sig.getD i [])
          match msccaWindows stimulus_num s.n_neighbor ref_sig_sort template_sig_sort
              (intRange 1 ((stimulus_num : ℤ) + 1)) with
          | none => .error .indexError
          | some ws =>
            let ref_sig_mscca := ws.map (fun p => hconcatList p.1)
            let template_sig_mscca := ws.map (fun p =>
              (List.range filterbank_num).map (fun k =>
                hconcatList (p.2.map (fun t => t.getD k default))))
            let U := (List.range filterbank_num).map (fun k =>
              (List.range stimulus_num).map (fun i =>
                ((canoncorr_UV O ((template_sig_mscca.getD i []).getD k default).transpose
                  (ref_sig_mscca.getD i default).transpose).1.slice channel_num
                    s.n_component)))
            let V := (List.range filterbank_num).map (fun k =>
              (List.range stimulus_num).map (fun i =>
                ((canoncorr_UV O ((template_sig_mscca.getD i []).getD k default).transpose
                  (ref_sig_mscca.getD i default).transpose).2.1.slice harmonic_num
                    s.n_component)))
            .ok { s with ref_sig := some refs, template_sig := some template_sig,
                         U := some (U.map (fun row =>
                           srt.2.2.map (fun i => row.getD i default))),
                         V := some (V.map (fun row =>
                           srt.2.2.map (fun i => row.getD i default))) }


/-- C2 (amended).  The boundary clamping of the `MSCCA.fit` neighbor window
is sound exactly on configurations with `n_neighbor ≤ stimulus_num`: for
every 1-based class index, every index the window generates lies inside
`[0, stimulus_num)`, so the window gathers only valid classes and `fit`
raises no index error from it.  (For `n_neighbor > stimulus_num` the first
branch produces the window `[0, n_neighbor)`, which overruns the class
range — see the counterexample theorem.) -/
theorem mscca_window_in_range (stim nn : ℕ) (class_idx i : ℤ)
    (hnn : nn ≤ stim) (h1 : 1 ≤ class_idx) (h2 : class_idx ≤ (stim : ℤ))
    (hi1 : (msccaWindow stim nn class_idx).1 ≤ i)
    (hi2 : i < (msccaWindow stim nn class_idx).2) :
    0 ≤ i ∧ i < (stim : ℤ) := by
  unfold msccaWindow at hi1 hi2
  dsimp only at hi1 hi2
  by_cases hc1 : class_idx ≤ ((nn / 2 : ℕ) : ℤ)
  · rw [if_pos hc1] at hi1 hi2
    dsimp only at hi1 hi2
    omega
  · rw [if_neg hc1] at hi1 hi2
    by_cases hc2 : ((nn / 2 : ℕ) : ℤ) < class_idx
        ∧ class_idx < (stim : ℤ) - ((nn / 2 : ℕ) : ℤ) + 1
    · rw [if_pos hc2] at hi1 hi2
      dsimp only at hi1 hi2
      omega
    · rw [if_neg hc2] at hi1 hi2
      dsimp only at hi1 hi2
      omega

/-- Witness for C2's amended window-soundness theorem at a concrete
configuration (2 classes, 2 neighbors, class 1, index 1). -/
theorem mscca_window_in_range_witness : (0 : ℤ) ≤ 1 ∧ (1 : ℤ) < ((2 : ℕ) : ℤ) :=
  mscca_window_in_range 2 2 1 1 (by decide) (by decide) (by decide)
    (by decide) (by decide)

/-- Counterexample for C2 as stated: an `MSCCA` instance with
`n_neighbor = 3` larger than `stimulus_num = 2` does not clamp the neighbor
window — `fit` fails with an `IndexError` (the first class's window is
`[0, 3)` and index 2 is outside the 2-class range), instead of completing
without an index-out-of-bounds failure. -/
theorem mscca_overrun_counterexample :
    MSCCA_fit c1Oracle (MSCCA_init 3 1 none) (some [1, 2]) (some [[c1X], [c1X]])
      (some [0, 1]) (some [c6X, c6X]) = .error .indexError := by
  have hsort : argsortAsc [(1 : ℚ), 2] = [0, 1] := by
    norm_num [argsortAsc, insertIdxBy, List.range_succ]
  have hwin : ∀ (rs : List Mat) (ts : List (List Mat)), rs.length = 2 →
      msccaWindows 2 3 rs ts [(1 : ℤ), 2] = none := by
    intro rs ts hlen
    match rs, hlen with
    | [a, b], _ =>
      simp [msccaWindows, pyGather, pyGet, msccaWindow, intRange]
  rw [MSCCA_fit]
  dsimp only [MSCCA_init]
  rw [show gen_template [[c1X], [c1X]] [0, 1]
      = (List.range 2).map (fun c =>
        let trials := ([[c1X], [c1X]].zip [0, 1]).filterMap
          (fun p => if p.2 = c then some p.1 else none)
        (List.range (trials.headD []).length).map (fun k =>
          let bands := trials.map (fun t => t.getD k default)
          ⟨(bands.headD default).rows, (bands.headD default).cols,
            fun i j => (∑ t ∈ Finset.range trials.length,
              (bands.getD t default).entry i j) / (trials.length : ℚ)⟩))
      from by norm_num [gen_template]]
  rw [show (sortQ [(1 : ℚ), 2]).2.1 = [0, 1] from by rw [sortQ]; exact hsort]
  have hIR : ∀ b : ℤ, b = 3 → intRange 1 b = [1, 2] := by
    intro b hb
    subst hb
    rw [intRange]
    rw [if_pos (by norm_num : (1 : ℤ) < 3)]
    rw [intRange]
    norm_num
    rw [intRange]
    norm_num
  simp only [List.length_map, List.length_range]
  norm_num [hIR, hwin]

/-- Mutable state of an `OACCA` instance: the constructor fixes
`n_component = 1`; `fit` stores the reference signals and resets the
accumulated covariances; `predict` mutates the filters trial by trial.
`covar_mat`, `Cxx`, `Cxy` are stored per band (the source keeps them as
3-D arrays with the band as the last axis). -/
structure OACCAState where
  weights_filterbank : Option (List ℚ)
  n_component : ℕ
  ref_sig : Option (List Mat)
  covar_mat : Option (List Mat)
  Cxx : Option (List Mat)
  Cxy : Option (List Mat)
  U0 : Option (List (List Mat))
  U : Option (List (List Mat))
  V : Option (List (List Mat))

/-- Embeds `OACCA.__init__`: `n_component = 1`, filters `U0`, `U`, `V` set
to `None` (the only place they are ever reset). -/
def OACCA_init (weights_filterbank : Option (List ℚ)) : OACCAState :=
  ⟨weights_filterbank, 1, none, none, none, none, none, none, none⟩

/-- Embeds `OACCA.fit`: raises a `ValueError` when `ref_sig` is missing;
otherwise stores the reference signals and resets `covar_mat`, `Cxx`,
`Cxy` to `None`, touching nothing else. -/
def OACCA_fit (s : OACCAState) (ref_sig : Option (List Mat)) : Except PyErr OACCAState :=
  match ref_sig with
  | none => .error (.valueError "OACCA requires sine-cosine-based reference signal")
  | some refs =>
    .ok { s with ref_sig := some refs, covar_mat := none, Cxx := none, Cxy := none }

/-- The zero correlation grid standing for the scalar `0` that
`OACCA.predict` adds when no cached filters exist (`r2 = 0`, `r3 = 0`):
adding the scalar zero elementwise equals adding this zero matrix. -/
def zeroRR (fb stim : ℕ) : List (List ℚ) :=
  (List.range fb).map (fun _ => (List.range stim).map (fun _ => (0 : ℚ)))

/-- A band-class grid of zero matrices, `np.zeros((fb, stim, r, c))`. -/
def zeros4 (fb stim r c : ℕ) : List (List Mat) :=
  (List.range fb).map (fun _ => (List.range stim).map (fun _ => Mat.zero r c))

/-- The three per-trial decisions of `OACCA.predict`: the instantaneous CCA
decision `cca_res = argmax(w @ cca_r)`, the blended decision
`oacca_res = argmax(w @ (cca_r + r2 + r3))` and the prototype decision
`prototype_res = argmax(w @ (cca_r + r3))`, where `r2` replays the stored
multi-stimulus filters (`0` when none are stored) and `r3` scores the
`U0`-filtered trial (`0` when no prototype is stored).  The `U0` filtering
`x_filtered[k] = U0[k,0].T @ x_filtered[k]` assigns a `1 × signal_len`
product into a `channel_num × signal_len` band, which numpy broadcasts to
every channel row — the embedding reproduces that broadcast. -/
def oaccaDecisions (O : Oracle) (s : OACCAState) (x : List Mat) : ℕ × ℕ × ℕ :=
  let w := resolveWeights s.weights_filterbank x.length
  let Y := s.ref_sig.getD []
  let stim := Y.length
  let fb := x.length
  let Ysig := Y.map Sig.ref
  let cca_r := (_r_cca_canoncorr O x Ysig s.n_component true).1
  let r2 := match s.U, s.V with
    | some U, some V => _r_cca_canoncorr_withUV O x Ysig U V
    | _, _ => zeroRR fb stim
  let r3 := match s.U0 with
    | some U0 =>
      let xf := (List.range fb).map (fun k =>
        let proj := ((U0.getD k []).getD 0 default).transpose.mul (x.getD k default)
        (⟨(x.getD k default).rows, (x.getD k default).cols,
          fun _ j => proj.entry 0 j⟩ : Mat))
      (_r_cca_canoncorr O xf Ysig s.n_component false).1
    | none => zeroRR fb stim
  (argmaxList (weightedScores w cca_r),
   argmaxList (weightedScores w (addRR (addRR cca_r r2) r3)),
   argmaxList (weightedScores w (addRR cca_r r3)))

/-- The per-band mutable fields during the update loop of
`OACCA.predict`. -/
structure OaccaAcc where
  covar : List Mat
  U0 : Option (List (List Mat))
  Cxx : List Mat
  Cxy : List Mat
  U : Option (List (List Mat))
  V : Option (List (List Mat))

/-- Write the same column vector into column 0 of every class slot of band
`k`: the loop `for class_i in range(stim): G[k, class_i, :, 0] = v`. -/
def writeCol0All (grid : List (List Mat)) (k stim : ℕ) (v : ℕ → ℚ) :
    List (List Mat) :=
  grid.set k ((List.range stim).foldl (fun row ci =>
    row.set ci ((row.getD ci default).setCol 0 v)) (grid.getD k []))

/-- Body of the `for k in range(filterbank_num)` update loop of
`OACCA.predict` (context recomputed from the trial; all recomputations are
pure and reproduce the values the source hoists out of the loop).  When the
instantaneous and blended decisions agree, the normalized first canonical
spatial filter of the decided class updates the rank-one covariance
accumulator of band `k` and the leading eigenvector of that accumulator is
written into every class slot of `U0` (creating `U0` as zeros first if
absent; the imaginary part of a complex eigenvector is dropped, as
`np.real` / the real-dtype store does in the source).  Unconditionally, the
band's auto- and cross-covariances are accumulated, the block generalized
eigenproblem is solved by the external `slin.eig(A, B)`, the leading
eigenvector is split into a spatial part `u1` and a harmonic weight part
`v1` (with the all-zeros-except-last-3 fallback when the degenerate
`u1[0,0] == 1` solution appears), and `u1`, `v1` are written into every
class slot of `U` and `V`. -/
def oaccaBandUpdate (O : Oracle) (s : OACCAState) (x : List Mat)
    (acc : OaccaAcc) (k : ℕ) : OaccaAcc :=
  let Y := s.ref_sig.getD []
  let stim := Y.length
  let harm := (Y.headD default).rows
  let fb := x.length
  let ch := (x.headD default).rows
  let sl := (x.headD default).cols
  let Ysig := Y.map Sig.ref
  let cca_sfx := (_r_cca_canoncorr O x Ysig s.n_component true).2.1
  let d := oaccaDecisions O s x
  let cca_res := d.1
  let oacca_res := d.2.1
  let prototype_res := d.2.2
  let step1 : List Mat × Option (List (List Mat)) :=
    if cca_res = oacca_res then
      let U0cur := acc.U0.getD (zeros4 fb stim ch s.n_component)
      let sf1x := (cca_sfx.getD k []).getD cca_res default
      let nrm := O.sqrtQ (Mat.sumSq sf1x)
      let sf1xn := Mat.smul nrm⁻¹ sf1x
      let covark := (acc.covar.getD k default).add (sf1xn.mul sf1xn.transpose)
      let e := O.eigc covark
      let sortIdx := (O.argsortc e.1).reverse
      let u0 := fun r => (e.2.entry r (sortIdx.getD 0 0)).1
      (acc.covar.set k covark, some (writeCol0All U0cur k stim u0))
    else (acc.covar, acc.U0)
  let Ucur := acc.U.getD (zeros4 fb stim ch s.n_component)
  let Vcur := acc.V.getD (zeros4 fb stim harm s.n_component)
  let filteredData := x.getD k default
  let sinTemplate := (Y.getD prototype_res default).sliceCols sl
  let Cxxk := (acc.Cxx.getD k default).add (filteredData.mul filteredData.transpose)
  let Cxyk := (acc.Cxy.getD k default).add (filteredData.mul sinTemplate.transpose)
  let CCyy := Mat.eye harm
  let CCyx := Cxyk.transpose
  let A := Mat.vconcat (Mat.hconcat (Mat.zero Cxxk.rows Cxxk.cols) Cxyk)
    (Mat.hconcat CCyx (Mat.zero CCyy.rows CCyy.cols))
  let B := Mat.vconcat (Mat.hconcat Cxxk (Mat.zero Cxyk.rows Cxyk.cols))
    (Mat.hconcat (Mat.zero CCyx.rows CCyx.cols) CCyy)
  let e1 := O.geig A B
  let sortIdx := (O.argsortc e1.1).reverse
  let topcol := sortIdx.getD 0 0
  let u1 : ℕ → ℚ :=
    if e1.2.entry 0 topcol = ((1 : ℚ), (0 : ℚ))
    then fun r => if ch - 3 ≤ r then 1 else 0
    else fun r => (e1.2.entry r topcol).1
  let v1 : ℕ → ℚ := fun r => (e1.2.entry (ch + r) topcol).1
  { covar := step1.1, U0 := step1.2,
    Cxx := acc.Cxx.set k Cxxk, Cxy := acc.Cxy.set k Cxyk,
    U := some (writeCol0All Ucur k stim u1),
    V := some (writeCol0All Vcur k stim v1) }

/-- One trial of `OACCA.predict`: score (returning the blended decision) and
then run the per-band state update loop, after lazily initializing the
covariance accumulators to zeros when `covar_mat` is `None` (the source
initializes all three together on that condition). -/
def oaccaStep (O : Oracle) (s : OACCAState) (x : List Mat) : ℕ × OACCAState :=
  let Y := s.ref_sig.getD []
  let harm := (Y.headD default).rows
  let fb := x.length
  let ch := (x.headD default).rows
  let d := oaccaDecisions O s x
  let covar0 := if s.covar_mat.isNone
    then (List.range fb).map (fun _ => Mat.zero ch ch) else s.covar_mat.getD []
  let Cxx0 := if s.covar_mat.isNone
    then (List.range fb).map (fun _ => Mat.zero ch ch) else s.Cxx.getD []
  let Cxy0 := if s.covar_mat.isNone
    then (List.range fb).map (fun _ => Mat.zero ch harm) else s.Cxy.getD []
  let final := (List.range fb).foldl (oaccaBandUpdate O s x)
    ⟨covar0, s.U0, Cxx0, Cxy0, s.U, s.V⟩
  (d.2.1,
   { s with covar_mat := some final.covar, U0 := final.U0,
            Cxx := some final.Cxx, Cxy := some final.Cxy,
            U := final.U, V := final.V })

/-- Embeds `OACCA.predict`: strictly sequential over the trials, each trial
scored against the state left by the previous one. -/
def OACCA_predict (O : Oracle) (s : OACCAState) (X : List (List Mat)) :
    List ℕ × OACCAState :=
  X.foldl (fun acc x =>
    let st := oaccaStep O acc.2 x
    (acc.1 ++ [st.1], st.2)) ([], s)

/-- C9.  Calling `OACCA.fit` on an instance that has already processed
trials resets exactly `ref_sig`, `covar_mat`, `Cxx` and `Cxy` and leaves
`U0`, `U`, `V` (and the weight vector) unchanged, so filters learned by
earlier `predict` calls survive a refit; the constructor is the only place
that sets `U0`, `U`, `V` to `None`. -/
theorem oacca_fit_frame (w : Option (List ℚ)) (s : OACCAState) (refs : List Mat) :
    OACCA_fit s (some refs)
      = .ok { weights_filterbank := s.weights_filterbank, n_component := s.n_component,
              ref_sig := some refs, covar_mat := none, Cxx := none, Cxy := none,
              U0 := s.U0, U := s.U, V := s.V }
    ∧ (OACCA_init w).U0 = none ∧ (OACCA_init w).U = none ∧ (OACCA_init w).V = none :=
  ⟨rfl, rfl, rfl, rfl⟩

/-- Components of a fold are unchanged when every step preserves them. -/
theorem foldl_preserve {α β : Type} (f : α → β → α) (P : α → Prop)
    (hf : ∀ a b, P a → P (f a b)) : ∀ (l : List β) (a : α), P a → P (l.foldl f a) := by
  intro l
  induction l with
  | nil => intro a ha; exact ha
  | cons b bs ih => intro a ha; exact ih (f a b) (hf a b ha)

/-- On a disagreement trial the band update touches neither the covariance
accumulator nor the prototype filter. -/
theorem oaccaBandUpdate_disagree (O : Oracle) (s : OACCAState) (x : List Mat)
    (hd : (oaccaDecisions O s x).1 ≠ (oaccaDecisions O s x).2.1)
    (acc : OaccaAcc) (k : ℕ) :
    (oaccaBandUpdate O s x acc k).covar = acc.covar
    ∧ (oaccaBandUpdate O s x acc k).U0 = acc.U0 := by
  rw [oaccaBandUpdate]
  dsimp only
  rw [if_neg hd]
  exact ⟨rfl, rfl⟩

/-- On a disagreement trial the whole band loop preserves the covariance
accumulator and the prototype filter. -/
theorem oacca_fold_disagree (O : Oracle) (s : OACCAState) (x : List Mat)
    (hd : (oaccaDecisions O s x).1 ≠ (oaccaDecisions O s x).2.1) :
    ∀ (l : List ℕ) (a : OaccaAcc),
      (l.foldl (oaccaBandUpdate O s x) a).covar = a.covar
      ∧ (l.foldl (oaccaBandUpdate O s x) a).U0 = a.U0 := by
  intro l
  induction l with
  | nil => intro a; exact ⟨rfl, rfl⟩
  | cons b bs ih =>
    intro a
    obtain ⟨h1, h2⟩ := ih (oaccaBandUpdate O s x a b)
    obtain ⟨g1, g2⟩ := oaccaBandUpdate_disagree O s x hd a b
    exact ⟨h1.trans g1, h2.trans g2⟩

/-- C7 (amended).  On any trial where the instantaneous CCA decision
differs from the blended OACCA decision, the prototype `U0` is left
unchanged, and the accumulated covariance `covar_mat` is unchanged whenever
it was already initialized (not `None`).  The amendment is forced by the
lazy initialization: on a trial that starts with `covar_mat = None` — which
after a refit can be a disagreement trial, since `fit` keeps the learned
filters — `predict` sets `covar_mat` to the zero accumulator regardless of
agreement (see the counterexample theorem against the unamended claim). -/
theorem oacca_disagreement_frame (O : Oracle) (s : OACCAState) (x : List Mat)
    (hd : (oaccaDecisions O s x).1 ≠ (oaccaDecisions O s x).2.1) :
    (oaccaStep O s x).2.U0 = s.U0
    ∧ (s.covar_mat ≠ none → (oaccaStep O s x).2.covar_mat = s.covar_mat) := by
  rw [oaccaStep]
  dsimp only
  constructor
  · exact (oacca_fold_disagree O s x hd _ _).2
  · intro hcov
    rw [(oacca_fold_disagree O s x hd _ _).1]
    cases hc : s.covar_mat with
    | none => exact absurd hc hcov
    | some c => simp [hc]

/-- Reference signals for the OACCA lifecycle example: two one-harmonic,
one-sample classes with distinct values. -/
def cexRefs : List Mat := [⟨1, 1, fun _ _ => 5⟩, ⟨1, 1, fun _ _ => 3⟩]

/-- A one-band, one-channel, one-sample trial. -/
def cexTrial : List Mat := [⟨1, 1, fun _ _ => 1⟩]

/-- Concrete external numerics for the OACCA lifecycle example, chosen so
that the class scores are the reference values (the Pearson oracle reads
the projected reference side) and the learned harmonic weight is `-3`,
which flips the blended decision away from the instantaneous one on the
second trial. -/
def cexOracle : Oracle where
  qr := fun A => ⟨A, Mat.eye A.cols, [0]⟩
  svd := fun _ A => ⟨A, [0], ⟨1, 1, fun _ _ => 1⟩⟩
  pinv := fun A => A.transpose
  sqrtQ := fun _ => 1
  pearson := fun _ b => b.headD 0
  eigc := fun _ => ([(0, 0)], ⟨1, 1, fun _ _ => (1, 0)⟩)
  geig := fun _ _ => ([(0, 0), (0, 0)],
    ⟨2, 2, fun i j => if i = 1 ∧ j = 1 then (-3, 0) else (7, 0)⟩)
  argsortc := fun l => List.range l.length

/-- State after constructing an OACCA model and fitting it. -/
def cexS1 : OACCAState :=
  (OACCA_fit (OACCA_init none) (some cexRefs)).toOption.getD (OACCA_init none)

/-- State after the first predicted trial (filters now stored). -/
def cexS2 : OACCAState := (OACCA_predict cexOracle cexS1 [cexTrial]).2

/-- State after refitting the already-trained model: `covar_mat` is reset
to `None` while the learned `U0`, `U`, `V` survive. -/
def cexS3 : OACCAState :=
  (OACCA_fit cexS2 (some cexRefs)).toOption.getD (OACCA_init none)

/-- Helper: the decisions never read the covariance accumulator. -/
theorem oaccaDecisions_covar_invariant (O : Oracle) (s : OACCAState) (x : List Mat)
    (c : Option (List Mat)) :
    oaccaDecisions O { s with covar_mat := c } x = oaccaDecisions O s x := rfl

/-- Helper: on the post-refit state the instantaneous and blended decisions
disagree (the instantaneous decision is class 0, the blended one class 1). -/
theorem cex_decisions_ne :
    (oaccaDecisions cexOracle cexS3 cexTrial).1
      ≠ (oaccaDecisions cexOracle cexS3 cexTrial).2.1 := by
  with_unfolding_all decide

/-- Counterexample for C7 as stated: after the reachable lifecycle
construct → fit → predict (one trial) → fit → predict, the second predict
processes a trial on which the instantaneous and blended decisions
disagree, yet `model['covar_mat']` is not left unchanged: the trial starts
with `covar_mat = None` (reset by the refit) and ends with it initialized
to the zero accumulator. -/
theorem oacca_covar_counterexample :
    (oaccaDecisions cexOracle cexS3 cexTrial).1
      ≠ (oaccaDecisions cexOracle cexS3 cexTrial).2.1
    ∧ cexS3.covar_mat = none
    ∧ (OACCA_predict cexOracle cexS3 [cexTrial]).2.covar_mat ≠ none := by
  refine ⟨cex_decisions_ne, by with_unfolding_all rfl, ?_⟩
  intro h
  have hs : (OACCA_predict cexOracle cexS3 [cexTrial]).2.covar_mat.isSome = true := by
    with_unfolding_all rfl
  rw [h] at hs
  exact Bool.noConfusion hs

/-- The post-refit disagreement state with the covariance accumulator
already initialized, for the C7 witness. -/
def cexS3cov : OACCAState := { cexS3 with covar_mat := some [] }

/-- Witness for C7's amended theorem: a concrete disagreement trial on a
state with an initialized covariance accumulator leaves both the prototype
and the accumulator unchanged. -/
theorem oacca_disagreement_frame_witness :
    (oaccaStep cexOracle cexS3cov cexTrial).2.U0 = cexS3cov.U0
    ∧ (cexS3cov.covar_mat ≠ none →
      (oaccaStep cexOracle cexS3cov cexTrial).2.covar_mat = cexS3cov.covar_mat) :=
  oacca_disagreement_frame cexOracle cexS3cov cexTrial
    (by
      have h : cexS3cov = { cexS3 with covar_mat := some [] } := rfl
      rw [h, oaccaDecisions_covar_invariant]
      exact cex_decisions_ne)

/-! ### Class-uniformity of the stored OACCA filters -/

/-- All class slots of one band hold the same leading filter column. -/
def rowUniform (row : List Mat) : Prop :=
  ∀ i, i < row.length → ∀ j, j < row.length → ∀ r : ℕ,
    (row.getD i default).entry r 0 = (row.getD j default).entry r 0

/-- Every band of a stored filter grid is class-uniform. -/
def gridUniform (g : List (List Mat)) : Prop :=
  ∀ k, k < g.length → rowUniform (g.getD k [])

/-- Shape discipline of a stored filter grid: one row per filter-bank band
and one slot per stimulus class. -/
def gridShape (g : List (List Mat)) (fb stim : ℕ) : Prop :=
  g.length = fb ∧ ∀ k, k < fb → (g.getD k []).length = stim

/-- A possibly-absent filter grid is well-shaped and class-uniform whenever
it is present. -/
def optUniform (o : Option (List (List Mat))) (fb stim : ℕ) : Prop :=
  ∀ g, o = some g → gridShape g fb stim ∧ gridUniform g

/-- Invariant carried through the band loop: well-shaped whenever present,
and class-uniform on the first `m` bands. -/
def bandedInv (o : Option (List (List Mat))) (fb stim m : ℕ) : Prop :=
  ∀ g, o = some g → gridShape g fb stim ∧ ∀ k, k < m → rowUniform (g.getD k [])

/-- `List.set` then read back at the written index. -/
theorem getD_set_self {α : Type} : ∀ (l : List α) (i : ℕ) (a d : α),
    i < l.length → (l.set i a).getD i d = a := by
  intro l
  induction l with
  | nil => intro i a d h; exact absurd h (by simp)
  | cons x xs ih =>
    intro i a d h
    cases i with
    | zero => rfl
    | succ n =>
      have hs : (x :: xs).set (n + 1) a = x :: xs.set n a := rfl
      rw [hs, List.getD_cons_succ]
      exact ih n a d (Nat.lt_of_succ_lt_succ h)

/-- `List.set` leaves every other index unchanged. -/
theorem getD_set_ne {α : Type} : ∀ (l : List α) (i j : ℕ) (a d : α),
    i ≠ j → (l.set i a).getD j d = l.getD j d := by
  intro l
  induction l with
  | nil => intro i j a d _; rfl
  | cons x xs ih =>
    intro i j a d hij
    cases i with
    | zero =>
      cases j with
      | zero => exact absurd rfl hij
      | succ m => rfl
    | succ n =>
      cases j with
      | zero => rfl
      | succ m =>
        have hs : (x :: xs).set (n + 1) a = x :: xs.set n a := rfl
        rw [hs, List.getD_cons_succ, List.getD_cons_succ]
        exact ih n m a d (fun h => hij (by rw [h]))

/-- The inner class loop of `writeCol0All`, `for class_i in range(stim)`. -/
def classWrite (v : ℕ → ℚ) (stim : ℕ) (row : List Mat) : List Mat :=
  (List.range stim).foldl (fun row ci =>
    row.set ci ((row.getD ci default).setCol 0 v)) row

/-- `writeCol0All` is `classWrite` applied to band `k`. -/
theorem writeCol0All_eq (grid : List (List Mat)) (k stim : ℕ) (v : ℕ → ℚ) :
    writeCol0All grid k stim v = grid.set k (classWrite v stim (grid.getD k [])) := rfl

/-- The class loop keeps the number of class slots. -/
theorem classWrite_length (v : ℕ → ℚ) (stim : ℕ) (row : List Mat) :
    (classWrite v stim row).length = row.length :=
  foldl_preserve _ (fun r => r.length = row.length)
    (fun a b h => by dsimp only; rw [List.length_set]; exact h) (List.range stim) row rfl

/-- Every class slot the loop visits ends up holding `v` in column 0. -/
theorem classWrite_entry (v : ℕ → ℚ) :
    ∀ (stim : ℕ) (row : List Mat) (ci : ℕ), ci < row.length → ci < stim →
      ∀ r : ℕ, ((classWrite v stim row).getD ci default).entry r 0 = v r := by
  intro stim
  induction stim with
  | zero => intro row ci _ h2; exact absurd h2 (Nat.not_lt_zero ci)
  | succ m ih =>
    intro row ci h1 h2 r
    have hstep : classWrite v (m + 1) row
        = (classWrite v m row).set m (((classWrite v m row).getD m default).setCol 0 v) := by
      rw [classWrite, classWrite, List.range_succ, List.foldl_append]
      simp only [List.foldl_cons, List.foldl_nil]
    rw [hstep]
    by_cases hcm : ci = m
    · subst hcm
      rw [getD_set_self _ _ _ _ (by rw [classWrite_length]; exact h1)]
      rfl
    · rw [getD_set_ne _ _ _ _ _ (fun h => hcm h.symm)]
      exact ih row ci h1 (Nat.lt_of_le_of_ne (Nat.lt_succ_iff.mp h2) hcm) r

/-- The zero grid has the shape of its parameters. -/
theorem zeros4_shape (fb stim r c : ℕ) : gridShape (zeros4 fb stim r c) fb stim := by
  constructor
  · simp [zeros4]
  · intro k hk
    rw [zeros4, getD_map_range fb k hk]
    simp

/-- Every band of the zero grid is (trivially) class-uniform. -/
theorem zeros4_uniform (fb stim r c : ℕ) (k : ℕ) :
    rowUniform ((zeros4 fb stim r c).getD k []) := by
  intro i hi j hj rr
  by_cases hk : k < fb
  · rw [zeros4, getD_map_range fb k hk] at hi hj ⊢
    rw [List.length_map, List.length_range] at hi hj
    rw [getD_map_range stim i hi, getD_map_range stim j hj]
  · have hlen : (zeros4 fb stim r c).length ≤ k := by
      rw [zeros4, List.length_map, List.length_range]; omega
    rw [List.getD_eq_default _ _ hlen] at hi
    exact absurd hi (by simp)

/-- Writing one vector into column 0 of every class slot of band `m` keeps
the grid shape and makes band `m` class-uniform while preserving the
uniformity of the earlier bands. -/
theorem writeCol0All_inv (g : List (List Mat)) (fb stim m : ℕ) (v : ℕ → ℚ)
    (hm : m < fb) (hshape : gridShape g fb stim)
    (huni : ∀ k, k < m → rowUniform (g.getD k [])) :
    gridShape (writeCol0All g m stim v) fb stim
    ∧ ∀ k, k < m + 1 → rowUniform ((writeCol0All g m stim v).getD k []) := by
  obtain ⟨hlen, hrows⟩ := hshape
  have hmg : m < g.length := by rw [hlen]; exact hm
  constructor
  · constructor
    · rw [writeCol0All_eq, List.length_set]; exact hlen
    · intro k hk
      rw [writeCol0All_eq]
      by_cases hkm : k = m
      · subst hkm
        rw [getD_set_self _ _ _ _ hmg, classWrite_length]
        exact hrows k hk
      · rw [getD_set_ne _ _ _ _ _ (fun h => hkm h.symm)]
        exact hrows k hk
  · intro k hk
    rw [writeCol0All_eq]
    by_cases hkm : k = m
    · subst hkm
      rw [getD_set_self _ _ _ _ hmg]
      intro i hi j hj r
      rw [classWrite_length] at hi hj
      have hst : (g.getD k []).length = stim := hrows k hm
      rw [classWrite_entry v stim _ i hi (by rw [hst] at hi; exact hi) r,
          classWrite_entry v stim _ j hj (by rw [hst] at hj; exact hj) r]
    · rw [getD_set_ne _ _ _ _ _ (fun h => hkm h.symm)]
      exact huni k (Nat.lt_of_le_of_ne (Nat.lt_succ_iff.mp hk) hkm)

/-- Invariant transport along a fold over `List.range`. -/
theorem fold_range_inv {α : Type} (f : α → ℕ → α) (P : ℕ → α → Prop) :
    ∀ n : ℕ, (∀ m, m < n → ∀ a, P m a → P (m + 1) (f a m)) →
      ∀ a, P 0 a → P n ((List.range n).foldl f a) := by
  intro n
  induction n with
  | zero => intro _ a h; exact h
  | succ m ih =>
    intro hstep a h
    rw [List.range_succ, List.foldl_append]
    simp only [List.foldl_cons, List.foldl_nil]
    exact hstep m (Nat.lt_succ_self m) _
      (ih (fun k hk a' h' => hstep k (Nat.lt_succ_of_lt hk) a' h') a h)

/-- One band-loop iteration writes a single vector into every class slot of
band `m` of `U` and `V`, so it extends their class-uniformity to band `m`. -/
theorem oaccaBandUpdate_invUV (O : Oracle) (s : OACCAState) (x : List Mat)
    (fb stim : ℕ) (hfb : x.length = fb)
    (hstim : (s.ref_sig.getD []).length = stim)
    (m : ℕ) (hm : m < fb) (acc : OaccaAcc)
    (hU : bandedInv acc.U fb stim m) (hV : bandedInv acc.V fb stim m) :
    bandedInv (oaccaBandUpdate O s x acc m).U fb stim (m + 1)
    ∧ bandedInv (oaccaBandUpdate O s x acc m).V fb stim (m + 1) := by
  rw [oaccaBandUpdate]
  dsimp only
  rw [hfb, hstim]
  constructor
  · intro g hg
    injection hg with hg
    subst hg
    refine writeCol0All_inv _ fb stim m _ hm ?_ ?_
    · cases hau : acc.U with
      | none => exact zeros4_shape fb stim _ _
      | some g0 => exact (hU g0 hau).1
    · cases hau : acc.U with
      | none => intro k _; exact zeros4_uniform fb stim _ _ k
      | some g0 => intro k hk; exact (hU g0 hau).2 k hk
  · intro g hg
    injection hg with hg
    subst hg
    refine writeCol0All_inv _ fb stim m _ hm ?_ ?_
    · cases hav : acc.V with
      | none => exact zeros4_shape fb stim _ _
      | some g0 => exact (hV g0 hav).1
    · cases hav : acc.V with
      | none => intro k _; exact zeros4_uniform fb stim _ _ k
      | some g0 => intro k hk; exact (hV g0 hav).2 k hk

/-- On an agreement trial each iteration likewise writes a single eigvector
into every class slot of band `m` of `U0`. -/
theorem oaccaBandUpdate_invU0 (O : Oracle) (s : OACCAState) (x : List Mat)
    (fb stim : ℕ) (hfb : x.length = fb)
    (hstim : (s.ref_sig.getD []).length = stim)
    (hd : (oaccaDecisions O s x).1 = (oaccaDecisions O s x).2.1)
    (m : ℕ) (hm : m < fb) (acc : OaccaAcc)
    (hU0 : bandedInv acc.U0 fb stim m) :
    bandedInv (oaccaBandUpdate O s x acc m).U0 fb stim (m + 1) := by
  rw [oaccaBandUpdate]
  dsimp only
  rw [if_pos hd]
  dsimp only
  rw [hfb, hstim]
  intro g hg
  injection hg with hg
  subst hg
  refine writeCol0All_inv _ fb stim m _ hm ?_ ?_
  · cases hau : acc.U0 with
    | none => exact zeros4_shape fb stim _ _
    | some g0 => exact (hU0 g0 hau).1
  · cases hau : acc.U0 with
    | none => intro k _; exact zeros4_uniform fb stim _ _ k
    | some g0 => intro k hk; exact (hU0 g0 hau).2 k hk

/-- Turning the full-length band invariant into the plain grid property. -/
theorem bandedInv_full (o : Option (List (List Mat))) (fb stim : ℕ)
    (h : bandedInv o fb stim fb) : optUniform o fb stim := by
  intro g hg
  obtain ⟨hs, hu⟩ := h g hg
  exact ⟨hs, fun k hk => hu k (by rw [hs.1] at hk; exact hk)⟩

/-- The plain grid property restricted to zero bands. -/
theorem optUniform_bandedInv0 (o : Option (List (List Mat))) (fb stim : ℕ)
    (h : optUniform o fb stim) : bandedInv o fb stim 0 :=
  fun g hg => ⟨(h g hg).1, fun k hk => absurd hk (Nat.not_lt_zero k)⟩

/-- On an agreement trial the whole band loop leaves `U`, `V` and `U0`
well-shaped and class-uniform on every band. -/
theorem oacca_fold_uniform (O : Oracle) (s : OACCAState) (x : List Mat)
    (fb stim : ℕ) (hfb : x.length = fb)
    (hstim : (s.ref_sig.getD []).length = stim)
    (hd : (oaccaDecisions O s x).1 = (oaccaDecisions O s x).2.1)
    (a : OaccaAcc)
    (hU : bandedInv a.U fb stim 0) (hV : bandedInv a.V fb stim 0)
    (hU0 : bandedInv a.U0 fb stim 0) :
    bandedInv ((List.range fb).foldl (oaccaBandUpdate O s x) a).U fb stim fb
    ∧ bandedInv ((List.range fb).foldl (oaccaBandUpdate O s x) a).V fb stim fb
    ∧ bandedInv ((List.range fb).foldl (oaccaBandUpdate O s x) a).U0 fb stim fb :=
  fold_range_inv (oaccaBandUpdate O s x)
    (fun m b => bandedInv b.U fb stim m ∧ bandedInv b.V fb stim m
      ∧ bandedInv b.U0 fb stim m) fb
    (fun m hm b hb =>
      ⟨(oaccaBandUpdate_invUV O s x fb stim hfb hstim m hm b hb.1 hb.2.1).1,
       (oaccaBandUpdate_invUV O s x fb stim hfb hstim m hm b hb.1 hb.2.1).2,
       oaccaBandUpdate_invU0 O s x fb stim hfb hstim hd m hm b hb.2.2⟩)
    a ⟨hU, hV, hU0⟩

/-- On any trial the band loop leaves `U` and `V` well-shaped and
class-uniform on every band. -/
theorem oacca_fold_uniformUV (O : Oracle) (s : OACCAState) (x : List Mat)
    (fb stim : ℕ) (hfb : x.length = fb)
    (hstim : (s.ref_sig.getD []).length = stim)
    (a : OaccaAcc)
    (hU : bandedInv a.U fb stim 0) (hV : bandedInv a.V fb stim 0) :
    bandedInv ((List.range fb).foldl (oaccaBandUpdate O s x) a).U fb stim fb
    ∧ bandedInv ((List.range fb).foldl (oaccaBandUpdate O s x) a).V fb stim fb :=
  fold_range_inv (oaccaBandUpdate O s x)
    (fun m b => bandedInv b.U fb stim m ∧ bandedInv b.V fb stim m) fb
    (fun m hm b hb =>
      oaccaBandUpdate_invUV O s x fb stim hfb hstim m hm b hb.1 hb.2)
    a ⟨hU, hV⟩

/-- One trial of `OACCA.predict` preserves the class-uniformity invariant of
the three stored filter grids. -/
theorem oaccaStep_uniform (O : Oracle) (s : OACCAState) (x : List Mat)
    (fb stim : ℕ) (hfb : x.length = fb)
    (hstim : (s.ref_sig.getD []).length = stim)
    (hU : optUniform s.U fb stim) (hV : optUniform s.V fb stim)
    (hU0 : optUniform s.U0 fb stim) :
    optUniform (oaccaStep O s x).2.U fb stim
    ∧ optUniform (oaccaStep O s x).2.V fb stim
    ∧ optUniform (oaccaStep O s x).2.U0 fb stim := by
  rw [oaccaStep]
  dsimp only
  rw [hfb]
  by_cases hd : (oaccaDecisions O s x).1 = (oaccaDecisions O s x).2.1
  · exact ⟨bandedInv_full _ _ _ (oacca_fold_uniform O s x fb stim hfb hstim hd _
        (optUniform_bandedInv0 _ _ _ hU) (optUniform_bandedInv0 _ _ _ hV)
        (optUniform_bandedInv0 _ _ _ hU0)).1,
      bandedInv_full _ _ _ (oacca_fold_uniform O s x fb stim hfb hstim hd _
        (optUniform_bandedInv0 _ _ _ hU) (optUniform_bandedInv0 _ _ _ hV)
        (optUniform_bandedInv0 _ _ _ hU0)).2.1,
      bandedInv_full _ _ _ (oacca_fold_uniform O s x fb stim hfb hstim hd _
        (optUniform_bandedInv0 _ _ _ hU) (optUniform_bandedInv0 _ _ _ hV)
        (optUniform_bandedInv0 _ _ _ hU0)).2.2⟩
  · refine ⟨bandedInv_full _ _ _ (oacca_fold_uniformUV O s x fb stim hfb hstim _
        (optUniform_bandedInv0 _ _ _ hU) (optUniform_bandedInv0 _ _ _ hV)).1,
      bandedInv_full _ _ _ (oacca_fold_uniformUV O s x fb stim hfb hstim _
        (optUniform_bandedInv0 _ _ _ hU) (optUniform_bandedInv0 _ _ _ hV)).2, ?_⟩
    rw [(oacca_fold_disagree O s x hd _ _).2]
    exact hU0

/-- `oaccaStep` never touches the stored reference signals. -/
theorem oaccaStep_ref_sig (O : Oracle) (t : OACCAState) (x : List Mat) :
    (oaccaStep O t x).2.ref_sig = t.ref_sig := rfl

/-- The state component of the trial fold of `OACCA.predict`. -/
def oaccaStates (O : Oracle) (t : OACCAState) (X : List (List Mat)) : OACCAState :=
  X.foldl (fun t x => (oaccaStep O t x).2) t

/-- The state left by `OACCA.predict` is the plain state fold (the decision
list threads alongside without influencing it). -/
theorem OACCA_predict_state (O : Oracle) :
    ∀ (X : List (List Mat)) (l : List ℕ) (t : OACCAState),
      (X.foldl (fun acc x =>
        let st := oaccaStep O acc.2 x
        (acc.1 ++ [st.1], st.2)) (l, t)).2 = oaccaStates O t X := by
  intro X
  induction X with
  | nil => intro l t; rfl
  | cons x xs ih => intro l t; exact ih _ _

/-- The trial-by-trial state fold preserves the class-uniformity invariant. -/
theorem oaccaStates_uniform (O : Oracle) (fb stim : ℕ) :
    ∀ (X : List (List Mat)) (t : OACCAState),
      (∀ x ∈ X, x.length = fb) →
      (t.ref_sig.getD []).length = stim →
      optUniform t.U fb stim → optUniform t.V fb stim → optUniform t.U0 fb stim →
      optUniform (oaccaStates O t X).U fb stim
      ∧ optUniform (oaccaStates O t X).V fb stim
      ∧ optUniform (oaccaStates O t X).U0 fb stim := by
  intro X
  induction X with
  | nil => intro t _ _ h1 h2 h3; exact ⟨h1, h2, h3⟩
  | cons x xs ih =>
    intro t hX hst h1 h2 h3
    have hx : x.length = fb := hX x (List.mem_cons_self x xs)
    obtain ⟨g1, g2, g3⟩ := oaccaStep_uniform O t x fb stim hx hst h1 h2 h3
    exact ih (oaccaStep O t x).2 (fun y hy => hX y (List.mem_cons_of_mem x hy))
      (by rw [oaccaStep_ref_sig]; exact hst) g1 g2 g3

/-- C10.  After every trial processed by `OACCA.predict` the stored filters
are class-uniform: whenever `U`, `V` or `U0` exists, for every filter-bank
band `k` and all class indices `i`, `j` the leading columns
`U[k,i,:,0]` and `U[k,j,:,0]` coincide (likewise for `V` and `U0`) — each
update writes the same filter vector into every class slot.  The invariant
holds for the state `predict` returns given well-shaped, class-uniform (or
absent) incoming filters, as produced by the constructor (`None`) and by
every earlier `predict` call. -/
theorem oacca_predict_class_uniform (O : Oracle) (s : OACCAState)
    (X : List (List Mat)) (fb stim : ℕ)
    (hX : ∀ x ∈ X, x.length = fb)
    (hstim : (s.ref_sig.getD []).length = stim)
    (hU : optUniform s.U fb stim) (hV : optUniform s.V fb stim)
    (hU0 : optUniform s.U0 fb stim) :
    optUniform (OACCA_predict O s X).2.U fb stim
    ∧ optUniform (OACCA_predict O s X).2.V fb stim
    ∧ optUniform (OACCA_predict O s X).2.U0 fb stim := by
  have he : (OACCA_predict O s X).2 = oaccaStates O s X := OACCA_predict_state O X [] s
  rw [he]
  exact oaccaStates_uniform O fb stim X s hX hstim hU hV hU0

/-- Witness for C10 at the concrete lifecycle example: one trial predicted
on the freshly fitted model leaves all three filter grids class-uniform. -/
theorem oacca_predict_class_uniform_witness :
    optUniform (OACCA_predict cexOracle cexS1 [cexTrial]).2.U 1 2
    ∧ optUniform (OACCA_predict cexOracle cexS1 [cexTrial]).2.V 1 2
    ∧ optUniform (OACCA_predict cexOracle cexS1 [cexTrial]).2.U0 1 2 :=
  oacca_predict_class_uniform cexOracle cexS1 [cexTrial] 1 2
    (fun x hx => by rw [List.mem_singleton] at hx; subst hx; rfl)
    (by rfl)
    (fun g hg => by
      rw [show cexS1.U = none from rfl] at hg
      exact Option.noConfusion hg)
    (fun g hg => by
      rw [show cexS1.V = none from rfl] at hg
      exact Option.noConfusion hg)
    (fun g hg => by
      rw [show cexS1.U0 = none from rfl] at hg
      exact Option.noConfusion hg)

/-- Mutable state of a `SCCA_canoncorr` instance: constructor options plus
the stored reference signals and the cached per-trial filter tuples. -/
structure SCCAccState where
  weights_filterbank : Option (List ℚ)
  n_component : ℕ
  force_output_UV : Bool
  update_UV : Bool
  ref_sig : Option (List Mat)
  U : Option (List (List (List Mat)))
  V : Option (List (List (List Mat)))

/-- Embeds `SCCA_canoncorr.__init__`: empty model with `U = V = None`. -/
def SCCA_canoncorr_init (n_component : ℕ) (weights_filterbank : Option (List ℚ))
    (force_output_UV update_UV : Bool) : SCCAccState :=
  ⟨weights_filterbank, n_component, force_output_UV, update_UV, none, none, none⟩

/-- Embeds `SCCA_canoncorr.fit`: raises a `ValueError` when `ref_sig` is
missing, otherwise stores the reference signals. -/
def SCCA_canoncorr_fit (s : SCCAccState) (ref_sig : Option (List Mat)) :
    Except PyErr SCCAccState :=
  match ref_sig with
  | none => .error (.valueError "sCCA requires sine-cosine-based reference signal")
  | some refs => .ok { s with ref_sig := some refs }

/-- C8.  Each embedded `fit` raises a configuration error (`ValueError`)
exactly when one of its model-specific required arguments is missing, and
the checks run before any state is written: `MSCCA.fit` requires `freqs`,
`ref_sig`, `Y` and `X`; `ECCA.fit` requires `ref_sig`, `Y` and `X`;
`SCCA_qr.fit`, `SCCA_canoncorr.fit` and `OACCA.fit` require `ref_sig`.
With every required argument present no `ValueError` is raised (`MSCCA.fit`
can still fail with an `IndexError`, which is not a configuration error). -/
theorem fit_valueerror_iff (O : Oracle) :
    (∀ (s : MSCCAState) (freqs : Option (List ℚ)) (X : Option (List (List Mat)))
        (Y : Option (List ℕ)) (ref_sig : Option (List Mat)),
      isCfgErr (MSCCA_fit O s freqs X Y ref_sig) = true
        ↔ (freqs = none ∨ ref_sig = none ∨ Y = none ∨ X = none))
    ∧ (∀ (s : ECCAState) (X : Option (List (List Mat))) (Y : Option (List ℕ))
        (ref_sig : Option (List Mat)),
      isCfgErr (ECCA_fit O s X Y ref_sig) = true
        ↔ (ref_sig = none ∨ Y = none ∨ X = none))
    ∧ (∀ (s : SCCAqrState) (ref_sig : Option (List Mat)),
      isCfgErr (SCCA_qr_fit O s ref_sig) = true ↔ ref_sig = none)
    ∧ (∀ (s : SCCAccState) (ref_sig : Option (List Mat)),
      isCfgErr (SCCA_canoncorr_fit s ref_sig) = true ↔ ref_sig = none)
    ∧ (∀ (s : OACCAState) (ref_sig : Option (List Mat)),
      isCfgErr (OACCA_fit s ref_sig) = true ↔ ref_sig = none) := by
  refine ⟨?_, ?_, ?_, ?_, ?_⟩
  · intro s freqs X Y ref_sig
    cases freqs with
    | none => simp [MSCCA_fit, isCfgErr]
    | some fr =>
      cases ref_sig with
      | none => simp [MSCCA_fit, isCfgErr]
      | some refs =>
        cases Y with
        | none => simp [MSCCA_fit, isCfgErr]
        | some labels =>
          cases X with
          | none => simp [MSCCA_fit, isCfgErr]
          | some trials =>
            rw [MSCCA_fit]
            dsimp only
            split
            · simp [isCfgErr]
            · simp [isCfgErr]
  · intro s X Y ref_sig
    cases ref_sig with
    | none => simp [ECCA_fit, isCfgErr]
    | some refs =>
      cases Y with
      | none => simp [ECCA_fit, isCfgErr]
      | some labels =>
        cases X with
        | none => simp [ECCA_fit, isCfgErr]
        | some trials => simp [ECCA_fit, isCfgErr]
  · intro s ref_sig
    cases ref_sig with
    | none => simp [SCCA_qr_fit, isCfgErr]
    | some refs => simp [SCCA_qr_fit, isCfgErr]
  · intro s ref_sig
    cases ref_sig with
    | none => simp [SCCA_canoncorr_fit, isCfgErr]
    | some refs => simp [SCCA_canoncorr_fit, isCfgErr]
  · intro s ref_sig
    cases ref_sig with
    | none => simp [OACCA_fit, isCfgErr]
    | some refs => simp [OACCA_fit, isCfgErr]
